import Mathlib

/-!
Verification development for the converter script generate_recipes_json.py.

The script loads the sheet named Nutrient Data from a spreadsheet,
projects and renames eight columns, replaces missing values by 0
(fillna), rounds the seven numeric columns to one decimal place
(DataFrame.round, which rounds half to even), converts the frame to a
list of records, and writes the list as pretty-printed JSON with
2-space indentation.  The whole body runs inside one try/except that
prints any error.

The embedding below models spreadsheet numbers as rationals, missing
numeric cells as none, and the filesystem as the content of the single
destination file.
-/

/-- A JSON-level atomic value as held in the in-memory records produced by
pandas to_dict.  The constructor jobj models a cell holding an object
that the json module cannot serialize (for example a datetime read from
the spreadsheet and passed through unchanged by pandas); every other
constructor is JSON-serializable. -/
inductive JAtom where
  | jstr (s : String)
  | jint (n : Int)
  | jfloat (q : ℚ)
  | jobj
deriving DecidableEq

/-- An output record as produced by to_dict with orient records: an
ordered association list from key names to atomic values. -/
abbrev Record := List (String × JAtom)

/-- A food_name cell: absent (NaN), a text value, or a non-serializable
object passed through by pandas. -/
inductive NameCell where
  | null
  | text (s : String)
  | obj
deriving DecidableEq

/-- A source row restricted to the eight columns the script reads.
Numeric cells are rationals; none models a NaN cell.  When a column is
missing from the loaded table the corresponding field is meaningless:
the conversion fails on the column check before ever reading it. -/
structure SourceRow where
  food_name : NameCell
  energy_kcal : Option ℚ
  protein_g : Option ℚ
  fat_g : Option ℚ
  carb_g : Option ℚ
  sodium_mg : Option ℚ
  potassium_mg : Option ℚ
  phosphorus_mg : Option ℚ
deriving DecidableEq

/-- The loaded sheet: its column names, in order, and its rows. -/
structure RawTable where
  cols : List String
  rows : List SourceRow
deriving DecidableEq

/-- Hard-coded source path from the script. -/
def file_path : String :=
  "/Users/harish/Desktop/BeanHealth-main/Indian-Nutrient-Databank-INDB--main/INDB.xlsx"

/-- Hard-coded destination path from the script. -/
def output_path : String :=
  "/Users/harish/Desktop/BeanHealth-main/src/data/recipes.json"

def kName : String := "name"
def kCalories : String := "calories"
def kProteinG : String := "proteinG"
def kFatG : String := "fatG"
def kCarbG : String := "carbG"
def kSodiumMg : String := "sodiumMg"
def kPotassiumMg : String := "potassiumMg"
def kPhosphorusMg : String := "phosphorusMg"

/-- The rename mapping relevant_cols from the script, in insertion
order (source column name, output key). -/
def relevant_cols : List (String × String) :=
  [("food_name", kName),
   ("energy_kcal", kCalories),
   ("protein_g", kProteinG),
   ("fat_g", kFatG),
   ("carb_g", kCarbG),
   ("sodium_mg", kSodiumMg),
   ("potassium_mg", kPotassiumMg),
   ("phosphorus_mg", kPhosphorusMg)]

/-- The required source columns, in the order the script selects them. -/
def requiredCols : List String := relevant_cols.map Prod.fst

/-- The output keys, in record order. -/
def outKeys : List String :=
  [kName, kCalories, kProteinG, kFatG, kCarbG, kSodiumMg, kPotassiumMg,
   kPhosphorusMg]

/-- num_cols from the script: the seven renamed numeric columns. -/
def num_cols : List String :=
  [kCalories, kProteinG, kFatG, kCarbG, kSodiumMg, kPotassiumMg, kPhosphorusMg]

/-- Round half to even of the fraction n / d (d a positive natural):
the rounding used by numpy rint, hence by DataFrame.round.  Computed
with integer arithmetic only so that it evaluates by kernel reduction;
the floor of n / d is the integer euclidean quotient, the fraction is
exactly one half when 2 * (n - floor * d) = d, and in the remaining
cases rounding to nearest is floor ((2n + d) / (2d)). -/
def rheAt (n : Int) (d : Nat) : Int :=
  let f : Int := n / (d : Int)
  if 2 * (n - f * d) = (d : Int) then (if f % 2 = 0 then f else f + 1)
  else (2 * n + d) / (2 * (d : Int))

/-- DataFrame.round with one decimal: scale by 10, round half to even,
unscale.  The argument of rheAt represents the rational 10 * q. -/
def round1 (q : ℚ) : ℚ := Rat.divInt (rheAt (10 * q.num) q.den) 10

/-- fillna(0) on the object-typed name column: a NaN cell becomes the
Python int 0; text and object cells pass through. -/
def fillName : NameCell → JAtom
  | NameCell.null => JAtom.jint 0
  | NameCell.text s => JAtom.jstr s
  | NameCell.obj => JAtom.jobj

/-- fillna(0) followed by round(1) on one numeric cell. -/
def cleanNum (v : Option ℚ) : ℚ := round1 (v.getD 0)

/-- One row after select and rename, fillna(0), round(1) and to_dict:
the keys appear in the insertion order of relevant_cols. -/
def cleanRow (r : SourceRow) : Record :=
  [(kName, fillName r.food_name),
   (kCalories, JAtom.jfloat (cleanNum r.energy_kcal)),
   (kProteinG, JAtom.jfloat (cleanNum r.protein_g)),
   (kFatG, JAtom.jfloat (cleanNum r.fat_g)),
   (kCarbG, JAtom.jfloat (cleanNum r.carb_g)),
   (kSodiumMg, JAtom.jfloat (cleanNum r.sodium_mg)),
   (kPotassiumMg, JAtom.jfloat (cleanNum r.potassium_mg)),
   (kPhosphorusMg, JAtom.jfloat (cleanNum r.phosphorus_mg))]

/-- Accessor and output key for each of the seven numeric source
fields, under the rename mapping. -/
def numFields : List ((SourceRow → Option ℚ) × String) :=
  [(SourceRow.energy_kcal, kCalories),
   (SourceRow.protein_g, kProteinG),
   (SourceRow.fat_g, kFatG),
   (SourceRow.carb_g, kCarbG),
   (SourceRow.sodium_mg, kSodiumMg),
   (SourceRow.potassium_mg, kPotassiumMg),
   (SourceRow.phosphorus_mg, kPhosphorusMg)]

/-- The Python exceptions the script can raise, by pipeline step. -/
inductive PyError where
  | fileNotFound
  | sheetMissing
  | keyError (c : String)
  | typeError
  | osError
deriving DecidableEq

/-- The outcome of read_excel on the configured path and sheet name. -/
inductive LoadOutcome where
  | ok (t : RawTable)
  | noFile
  | noSheet
deriving DecidableEq

/-- The observable filesystem state: the content of the destination
file when it exists, and whether the destination can be opened for
writing (the directory exists and is writable). -/
structure FS where
  dest : Option String
  writable : Bool
deriving DecidableEq

/-- Human-readable text of each exception, as interpolated into the
printed diagnostic. -/
def errMsg : PyError → String
  | PyError.fileNotFound => "[Errno 2] No such file or directory: " ++ file_path
  | PyError.sheetMissing => "Worksheet named Nutrient Data not found"
  | PyError.keyError c => "[" ++ c ++ "] not in index"
  | PyError.typeError => "Object of type Timestamp is not JSON serializable"
  | PyError.osError => "[Errno 2] No such file or directory: " ++ output_path

/-- One lowercase hexadecimal digit, as json.dump emits in escapes. -/
def hexChar (n : Nat) : Char :=
  if n < 10 then Char.ofNat (48 + n) else Char.ofNat (87 + n)

/-- Four hex digits of a code unit below 0x10000. -/
def hex4 (n : Nat) : List Char :=
  [hexChar (n / 4096 % 16), hexChar (n / 256 % 16), hexChar (n / 16 % 16),
   hexChar (n % 16)]

/-- How json.dump with default ensure_ascii renders one character of a
string: quote and backslash get two-character escapes, the five named
control characters get short escapes, every other character outside
0x20..0x7e gets a u-escape (a surrogate pair beyond 0xffff), printable
ascii is copied as is. -/
def escapeChar (c : Char) : List Char :=
  if c = '"' then ['\\', '"']
  else if c = '\\' then ['\\', '\\']
  else if c = '\x08' then ['\\', 'b']
  else if c = '\x09' then ['\\', 't']
  else if c = '\x0a' then ['\\', 'n']
  else if c = '\x0c' then ['\\', 'f']
  else if c = '\x0d' then ['\\', 'r']
  else if c.toNat < 32 ∨ 127 ≤ c.toNat then
    (if c.toNat < 65536 then '\\' :: 'u' :: hex4 c.toNat
     else
       ('\\' :: 'u' :: hex4 (55296 + (c.toNat - 65536) / 1024)) ++
       ('\\' :: 'u' :: hex4 (56320 + (c.toNat - 65536) % 1024)))
  else [c]

/-- The escaped body of a JSON string. -/
def escapeString : List Char → List Char
  | [] => []
  | c :: cs => escapeChar c ++ escapeString cs

/-- Decimal digits of n, most significant first, by fuel-bounded
division; empty on zero (callers special-case it). -/
def natCharsAux : Nat → Nat → List Char
  | 0, _ => []
  | _ + 1, 0 => []
  | fuel + 1, n => natCharsAux fuel (n / 10) ++ [Char.ofNat (48 + n % 10)]

/-- Decimal rendering of a natural number. -/
def natChars (n : Nat) : List Char :=
  if n = 0 then ['0'] else natCharsAux (n + 1) n

/-- Python repr of an int: optional minus sign and decimal digits. -/
def renderInt (n : Int) : List Char :=
  if n < 0 then '-' :: natChars n.natAbs else natChars n.natAbs

/-- Python repr of the floats produced by the conversion: every such
value is an integer number of tenths k/10 and prints as the decimal of
k/10 with exactly one digit after the point (so integer-valued floats
print with a trailing .0, as repr does). -/
def renderFloat (q : ℚ) : List Char :=
  let k : Int := 10 * q.num / q.den
  (if k < 0 then ['-'] else []) ++
    natChars (k.natAbs / 10) ++ '.' :: [Char.ofNat (48 + k.natAbs % 10)]

/-- JSON text of one serializable atom. -/
def serAtom : JAtom → List Char
  | JAtom.jstr s => '"' :: escapeString s.data ++ ['"']
  | JAtom.jint n => renderInt n
  | JAtom.jfloat q => renderFloat q
  | JAtom.jobj => []

/-- Newline plus 4-space indent (pair depth at indent 2). -/
def nl4 : List Char := ['\x0a', ' ', ' ', ' ', ' ']

/-- Newline plus 2-space indent (record depth at indent 2). -/
def nl2 : List Char := ['\x0a', ' ', ' ']

/-- Newline at depth 0. -/
def nl0 : List Char := ['\x0a']

/-- One key/value member as json.dump streams it: the key, the key
separator, then the value.  When the value is not serializable the
Bool is false and only the chunks written before the failure remain,
exactly as json.dump writes chunks to the already-open file. -/
def dumpPair (p : String × JAtom) : List Char × Bool :=
  let pre := '"' :: escapeString p.fst.data ++ ['"', ':', ' ']
  match p.snd with
  | JAtom.jobj => (pre, false)
  | v => (pre ++ serAtom v, true)

/-- The members after the first: item separator, newline, indent, then
the member; stops at the first failure. -/
def dumpPairsLoop : List (String × JAtom) → List Char × Bool
  | [] => ([], true)
  | p :: ps =>
    let s := dumpPair p
    if s.snd then
      let s2 := dumpPairsLoop ps
      (',' :: nl4 ++ s.fst ++ s2.fst, s2.snd)
    else (',' :: nl4 ++ s.fst, false)

/-- One record as a JSON object with 2-space indentation. -/
def dumpObj (r : Record) : List Char × Bool :=
  match r with
  | [] => (['\x7b', '\x7d'], true)
  | p :: ps =>
    let s := dumpPair p
    if s.snd then
      let s2 := dumpPairsLoop ps
      if s2.snd then
        ('\x7b' :: nl4 ++ s.fst ++ s2.fst ++ nl2 ++ ['\x7d'], true)
      else ('\x7b' :: nl4 ++ s.fst ++ s2.fst, false)
    else ('\x7b' :: nl4 ++ s.fst, false)

/-- The records after the first, with separators. -/
def dumpObjsLoop : List Record → List Char × Bool
  | [] => ([], true)
  | r :: rs =>
    let s := dumpObj r
    if s.snd then
      let s2 := dumpObjsLoop rs
      (',' :: nl2 ++ s.fst ++ s2.fst, s2.snd)
    else (',' :: nl2 ++ s.fst, false)

/-- json.dump of the record list with indent 2: the character stream
actually written to the destination file, and whether serialization
completed; on failure the stream holds exactly the chunks emitted
before the non-serializable value was reached. -/
def json_dump (l : List Record) : List Char × Bool :=
  match l with
  | [] => (['[', ']'], true)
  | r :: rs =>
    let s := dumpObj r
    if s.snd then
      let s2 := dumpObjsLoop rs
      if s2.snd then ('[' :: nl2 ++ s.fst ++ s2.fst ++ nl0 ++ [']'], true)
      else ('[' :: nl2 ++ s.fst ++ s2.fst, false)
    else ('[' :: nl2 ++ s.fst, false)

/-- Project the eight required columns (KeyError on the first missing
one, as indexing a DataFrame by a column list does), rename them,
fillna, round, and convert to records in source row order. -/
def cleanTable (t : RawTable) : Except PyError (List Record) :=
  match requiredCols.find? (fun c => !(t.cols.contains c)) with
  | some c => Except.error (PyError.keyError c)
  | none => Except.ok (t.rows.map cleanRow)

/-- The success line printed by the script. -/
def successMsg (k : Nat) : String :=
  "Successfully generated " ++ toString k ++ " recipes at " ++ output_path

/-- The body of the try block: load, clean, open the destination
(truncating it) and stream the JSON into it.  Returns the final
filesystem state and either the success message or the exception that
escaped the step.  The destination is touched only once the record
list is complete and the file opens; a serialization failure then
leaves the partial stream in the file. -/
def pipeline (load : LoadOutcome) (fs : FS) : FS × Except PyError String :=
  match load with
  | LoadOutcome.noFile => (fs, Except.error PyError.fileNotFound)
  | LoadOutcome.noSheet => (fs, Except.error PyError.sheetMissing)
  | LoadOutcome.ok t =>
    match cleanTable t with
    | Except.error e => (fs, Except.error e)
    | Except.ok recs =>
      if fs.writable then
        let s := json_dump recs
        let fs2 : FS := { dest := some (String.mk s.fst), writable := fs.writable }
        if s.snd then (fs2, Except.ok (successMsg recs.length))
        else (fs2, Except.error PyError.typeError)
      else (fs, Except.error PyError.osError)

/-- How the call to generate_recipe_json ends: a normal return with
what was printed, or an uncaught exception. -/
inductive Outcome where
  | returned (msg : String)
  | raised (e : PyError)
deriving DecidableEq

/-- generate_recipe_json: the pipeline wrapped in try/except, which
turns every raised exception into one printed diagnostic line. -/
def generate_recipe_json (load : LoadOutcome) (fs : FS) : FS × Outcome :=
  match pipeline load fs with
  | (fs2, Except.ok m) => (fs2, Outcome.returned m)
  | (fs2, Except.error e) =>
    (fs2, Outcome.returned ("An error occurred: " ++ errMsg e))

/-- Process exit status of a run whose top-level call ended as given:
falling off the end of the script exits 0, an uncaught exception
exits 1. -/
def exitCode : Outcome → Nat
  | Outcome.returned _ => 0
  | Outcome.raised _ => 1

/-- Skip JSON whitespace. -/
def skipWs : List Char → List Char
  | [] => []
  | c :: cs =>
    if c = ' ' ∨ c = '\x0a' ∨ c = '\x09' ∨ c = '\x0d' then skipWs cs
    else c :: cs

/-- Value of one hex digit character. -/
def hexVal (c : Char) : Option Nat :=
  if 48 ≤ c.toNat ∧ c.toNat ≤ 57 then some (c.toNat - 48)
  else if 97 ≤ c.toNat ∧ c.toNat ≤ 102 then some (c.toNat - 87)
  else if 65 ≤ c.toNat ∧ c.toNat ≤ 70 then some (c.toNat - 55)
  else none

/-- Four hex digits to a code unit. -/
def parse4Hex : List Char → Option (Nat × List Char)
  | a :: b :: c :: d :: rest =>
    (match hexVal a, hexVal b, hexVal c, hexVal d with
     | some x, some y, some z, some w =>
       some (4096 * x + 256 * y + 16 * z + w, rest)
     | _, _, _, _ => none)
  | _ => none

/-- The character denoted by a two-character escape. -/
def shortUnescape (c : Char) : Option Char :=
  if c = '"' then some '"'
  else if c = '\\' then some '\\'
  else if c = '/' then some '/'
  else if c = 'b' then some '\x08'
  else if c = 'f' then some '\x0c'
  else if c = 'n' then some '\x0a'
  else if c = 'r' then some '\x0d'
  else if c = 't' then some '\x09'
  else none

/-- One character of a JSON string body: a literal character, a short
escape, a u-escape, or a surrogate pair of u-escapes.  A closing quote
belongs to the caller and yields none. -/
def parseOneChar : List Char → Option (Char × List Char)
  | [] => none
  | c :: cs =>
    if c = '\\' then
      (match cs with
       | [] => none
       | e :: cs1 =>
         if e = 'u' then
           (match parse4Hex cs1 with
            | some (n, cs2) =>
              if 55296 ≤ n ∧ n < 56320 then
                (match cs2 with
                 | b1 :: b2 :: cs3 =>
                   if b1 = '\\' ∧ b2 = 'u' then
                     (match parse4Hex cs3 with
                      | some (m, cs4) =>
                        if 56320 ≤ m ∧ m < 57344 then
                          some (Char.ofNat (65536 + 1024 * (n - 55296) + (m - 56320)), cs4)
                        else none
                      | none => none)
                   else none
                 | _ => none)
              else if 56320 ≤ n ∧ n < 57344 then none
              else some (Char.ofNat n, cs2)
            | none => none)
         else
           (match shortUnescape e with
            | some c2 => some (c2, cs1)
            | none => none))
    else if c = '"' then none
    else some (c, cs)

/-- JSON string body up to (and consuming) the closing quote; the fuel
bounds the number of decoded characters. -/
def parseStringBody : Nat → List Char → Option (List Char × List Char)
  | 0, _ => none
  | _ + 1, [] => none
  | fuel + 1, c :: cs =>
    if c = '"' then some ([], cs)
    else
      (match parseOneChar (c :: cs) with
       | some (ch, rest) =>
         (match parseStringBody fuel rest with
          | some (out, rest2) => some (ch :: out, rest2)
          | none => none)
       | none => none)

/-- Longest digit run: accumulated value, count of digits consumed,
remainder. -/
def parseDigitsCnt (acc : Nat) (k : Nat) : List Char → Nat × Nat × List Char
  | [] => (acc, k, [])
  | c :: cs =>
    if c.isDigit then parseDigitsCnt (10 * acc + (c.toNat - 48)) (k + 1) cs
    else (acc, k, c :: cs)

/-- An unsigned JSON number: at least one digit, an integer when no
decimal point follows, a float (scaled by the count of fraction
digits) otherwise. -/
def parseUnsigned (cs : List Char) : Option (JAtom × List Char) :=
  match parseDigitsCnt 0 0 cs with
  | (ip, ic, cs2) =>
    if ic = 0 then none
    else
      (match cs2 with
       | [] => some (JAtom.jint (ip : Int), [])
       | c2 :: rest2 =>
         if c2 = '.' then
           (match parseDigitsCnt 0 0 rest2 with
            | (fv, fc, cs4) =>
              if fc = 0 then none
              else
                some (JAtom.jfloat
                  (Rat.divInt ((ip : Int) * ((10 ^ fc : Nat) : Int) + (fv : Int))
                    ((10 ^ fc : Nat) : Int)), cs4))
         else some (JAtom.jint (ip : Int), c2 :: rest2))

/-- Negate a numeric atom. -/
def negAtom : JAtom → JAtom
  | JAtom.jint n => JAtom.jint (-n)
  | JAtom.jfloat q => JAtom.jfloat (-q)
  | a => a

/-- A JSON number with optional sign. -/
def parseNumber : List Char → Option (JAtom × List Char)
  | [] => none
  | c :: cs =>
    if c = '-' then
      (match parseUnsigned cs with
       | some (a, r) => some (negAtom a, r)
       | none => none)
    else parseUnsigned (c :: cs)

/-- A JSON scalar: string or number. -/
def parseAtom (sf : Nat) (cs : List Char) : Option (JAtom × List Char) :=
  match cs with
  | [] => none
  | c :: cs1 =>
    if c = '"' then
      (match parseStringBody sf cs1 with
       | some (out, rest) => some (JAtom.jstr (String.mk out), rest)
       | none => none)
    else parseNumber (c :: cs1)

/-- One key/value member: key string, colon, value. -/
def parsePair (sf : Nat) (cs : List Char) : Option ((String × JAtom) × List Char) :=
  match skipWs cs with
  | [] => none
  | c :: cs1 =>
    if c = '"' then
      (match parseStringBody sf cs1 with
       | some (k, cs2) =>
         (match skipWs cs2 with
          | [] => none
          | d :: cs3 =>
            if d = ':' then
              (match parseAtom sf (skipWs cs3) with
               | some (v, cs4) => some ((String.mk k, v), cs4)
               | none => none)
            else none)
       | none => none)
    else none

/-- Members after the first: comma then member, until the closing
brace; the fuel bounds the number of members. -/
def parseObjLoop (sf : Nat) : Nat → List Char → Option (Record × List Char)
  | 0, _ => none
  | fuel + 1, cs =>
    (match skipWs cs with
     | [] => none
     | c :: cs1 =>
       if c = '\x7d' then some ([], cs1)
       else if c = ',' then
         (match parsePair sf cs1 with
          | some (p, cs2) =>
            (match parseObjLoop sf fuel cs2 with
             | some (ps, cs3) => some (p :: ps, cs3)
             | none => none)
          | none => none)
       else none)

/-- A JSON object of scalar members. -/
def parseObj (sf : Nat) (cs : List Char) : Option (Record × List Char) :=
  match skipWs cs with
  | [] => none
  | c :: cs1 =>
    if c = '\x7b' then
      (match skipWs cs1 with
       | [] => none
       | d :: cs2 =>
         if d = '\x7d' then some ([], cs2)
         else
           (match parsePair sf (d :: cs2) with
            | some (p, cs3) =>
              (match parseObjLoop sf sf cs3 with
               | some (ps, cs4) => some (p :: ps, cs4)
               | none => none)
            | none => none))
    else none

/-- Records after the first: comma then record, until the closing
bracket. -/
def parseArrLoop (sf : Nat) : Nat → List Char → Option (List Record × List Char)
  | 0, _ => none
  | fuel + 1, cs =>
    (match skipWs cs with
     | [] => none
     | c :: cs1 =>
       if c = ']' then some ([], cs1)
       else if c = ',' then
         (match parseObj sf cs1 with
          | some (r, cs2) =>
            (match parseArrLoop sf fuel cs2 with
             | some (rs, cs3) => some (r :: rs, cs3)
             | none => none)
          | none => none)
       else none)

/-- The top-level JSON array of objects. -/
def parseRecords (sf : Nat) (cs : List Char) : Option (List Record × List Char) :=
  match skipWs cs with
  | [] => none
  | c :: cs1 =>
    if c = '[' then
      (match skipWs cs1 with
       | [] => none
       | d :: cs2 =>
         if d = ']' then some ([], cs2)
         else
           (match parseObj sf (d :: cs2) with
            | some (r, cs3) =>
              (match parseArrLoop sf sf cs3 with
               | some (rs, cs4) => some (r :: rs, cs4)
               | none => none)
            | none => none))
    else none

/-- json.loads of the written text, for the array-of-flat-objects
fragment the script emits: the parse must consume everything but
trailing whitespace. -/
def json_loads (s : String) : Option (List Record) :=
  match parseRecords (s.length + 1) s.data with
  | some (l, rest) => if skipWs rest = [] then some l else none
  | none => none

/-- The floats the conversion produces are whole numbers of tenths;
this is the class on which renderFloat is exact. -/
def goodAtom : JAtom → Prop
  | JAtom.jfloat q => ∃ k : Int, q = (k : ℚ) / 10
  | _ => True

/-- All values of a record are in the exactly-serializable class. -/
def goodRec (r : Record) : Prop := ∀ p ∈ r, goodAtom p.snd

/-- All records of a list are in the exactly-serializable class. -/
def goodRecs (l : List Record) : Prop := ∀ r ∈ l, goodRec r

/-- Parser fuel needed for one atom: the decoded length of a string,
nothing for numbers. -/
def atomNeed : JAtom → Nat
  | JAtom.jstr s => s.data.length
  | _ => 0

/-- The character stream does not continue a digit run: empty, or
headed by a non-digit. -/
def digitBreak : List Char → Prop
  | [] => True
  | c :: _ => c.isDigit = false

/-- The character stream does not continue a number: empty, or headed
by a character that is neither a digit nor a decimal point. -/
def numBreak : List Char → Prop
  | [] => True
  | c :: _ => c.isDigit = false ∧ c ≠ '.'

/-- The fuel sf dominates every count the parser needs for this record
list: the record count, each record's member count, and each string's
decoded length. -/
def fits (sf : Nat) (l : List Record) : Prop :=
  l.length < sf ∧
    ∀ r ∈ l, r.length < sf ∧
      ∀ p ∈ r, p.fst.data.length < sf ∧ atomNeed p.snd < sf

/-- A representative source row (the scenario row of the spec). -/
def riceRow : SourceRow :=
  { food_name := NameCell.text "Rice"
    energy_kcal := some (Rat.divInt 130456 1000)
    protein_g := none
    fat_g := some (Rat.divInt 3 10)
    carb_g := some (Rat.divInt 287 10)
    sodium_mg := some 1
    potassium_mg := some 35
    phosphorus_mg := none }

/-- A one-row table with all required columns present. -/
def riceTable : RawTable := { cols := requiredCols, rows := [riceRow] }

/-- A fresh destination: no file yet, directory writable. -/
def fsEmpty : FS := { dest := none, writable := true }

/-- A row whose food_name cell is empty. -/
def nullNameRow : SourceRow :=
  { food_name := NameCell.null
    energy_kcal := some 1
    protein_g := some 1
    fat_g := some 1
    carb_g := some 1
    sodium_mg := some 1
    potassium_mg := some 1
    phosphorus_mg := some 1 }

/-- A row whose food_name cell holds a non-serializable object. -/
def objRow : SourceRow :=
  { food_name := NameCell.obj
    energy_kcal := some 1
    protein_g := some 1
    fat_g := some 1
    carb_g := some 1
    sodium_mg := some 1
    potassium_mg := some 1
    phosphorus_mg := some 1 }

/-- A one-row table whose name cell cannot be serialized. -/
def objTable : RawTable := { cols := requiredCols, rows := [objRow] }

/-- A destination that already holds content from an earlier run. -/
def fsOld : FS := { dest := some "OLD", writable := true }

/-- A row whose calorie value 0.25 is an exact tie between the tenths
0.2 and 0.3. -/
def tieRow : SourceRow :=
  { food_name := NameCell.text "Tie"
    energy_kcal := some (Rat.divInt 1 4)
    protein_g := none
    fat_g := none
    carb_g := none
    sodium_mg := none
    potassium_mg := none
    phosphorus_mg := none }

/-- A table missing the phosphorus column. -/
def missTable : RawTable :=
  { cols := ["food_name", "energy_kcal", "protein_g", "fat_g", "carb_g",
             "sodium_mg", "potassium_mg"]
    rows := [riceRow] }

/-! ## Properties of the rounding -/

theorem rheAt_floor_eq (n : Int) (d : Nat) :
    n / (d : Int) = ⌊(n : ℚ) / (d : ℚ)⌋ :=
  (Rat.floor_intCast_div_natCast n d).symm

theorem rheAt_tie_iff (n : Int) (d : Nat) (hd : 0 < d) :
    2 * (n - n / (d : Int) * d) = (d : Int) ↔
      (n : ℚ) / d - (⌊(n : ℚ) / d⌋ : ℚ) = 1 / 2 := by
  have hdq : ((d : ℚ)) ≠ 0 := by
    exact_mod_cast hd.ne'
  rw [← rheAt_floor_eq]
  have h1 : (n : ℚ) / d - ((n / (d : Int) : Int) : ℚ) =
      ((n - n / (d : Int) * d : Int) : ℚ) / (d : ℚ) := by
    push_cast
    field_simp
    ring
  rw [h1, div_eq_div_iff hdq (by norm_num : (2 : ℚ) ≠ 0)]
  constructor
  · intro h
    have h2 : ((2 * (n - n / (d : Int) * d) : Int) : ℚ) = ((d : Int) : ℚ) := by
      exact_mod_cast h
    push_cast at h2 ⊢
    linarith
  · intro h
    push_cast at h
    have h2 : ((2 * (n - n / (d : Int) * d) : Int) : ℚ) = ((d : Int) : ℚ) := by
      push_cast
      linarith
    exact_mod_cast h2

theorem rheAt_else_eq (n : Int) (d : Nat) (hd : 0 < d) :
    (2 * n + d) / (2 * (d : Int)) = ⌊(n : ℚ) / d + 1 / 2⌋ := by
  have hdq : ((d : ℚ)) ≠ 0 := by
    exact_mod_cast hd.ne'
  have hrepr : (n : ℚ) / d + 1 / 2 = ((2 * n + d : Int) : ℚ) / ((2 * d : Nat) : ℚ) := by
    push_cast
    field_simp
    ring
  rw [hrepr, Rat.floor_intCast_div_natCast]
  have h2d : ((2 * d : Nat) : Int) = 2 * (d : Int) := by
    push_cast
    ring
  rw [h2d]

theorem rheAt_dist (n : Int) (d : Nat) (hd : 0 < d) :
    |(rheAt n d : ℚ) - (n : ℚ) / d| ≤ 1 / 2 := by
  have hfq : ((n / (d : Int) : Int) : ℚ) = (⌊(n : ℚ) / d⌋ : ℚ) := by
    exact_mod_cast congrArg (fun z : Int => (z : ℚ)) (rheAt_floor_eq n d)
  unfold rheAt
  by_cases htie : 2 * (n - n / (d : Int) * d) = (d : Int)
  · rw [if_pos htie]
    have h12 := (rheAt_tie_iff n d hd).mp htie
    by_cases hev : n / (d : Int) % 2 = 0
    · rw [if_pos hev, abs_le]
      constructor <;> linarith
    · rw [if_neg hev]
      push_cast
      rw [abs_le]
      constructor <;> linarith
  · rw [if_neg htie]
    have heq : (2 * n + d) / (2 * (d : Int)) = round ((n : ℚ) / d) := by
      rw [round_eq]
      exact rheAt_else_eq n d hd
    rw [heq, abs_sub_comm]
    exact abs_sub_round _

theorem rheAt_nearest (n : Int) (d : Nat) (hd : 0 < d) (m : Int) :
    |(rheAt n d : ℚ) - (n : ℚ) / d| ≤ |(m : ℚ) - (n : ℚ) / d| := by
  rcases eq_or_ne m (rheAt n d) with rfl | hne
  · exact le_refl _
  · have h0 : (1 : Int) ≤ |m - rheAt n d| := Int.one_le_abs (sub_ne_zero.mpr hne)
    have h0q : ((1 : Int) : ℚ) ≤ ((|m - rheAt n d| : Int) : ℚ) := by
      exact_mod_cast h0
    rw [Int.cast_abs] at h0q
    push_cast at h0q
    have h2 := rheAt_dist n d hd
    have htri : |(m : ℚ) - (rheAt n d : ℚ)| ≤
        |(m : ℚ) - (n : ℚ) / d| + |(n : ℚ) / d - (rheAt n d : ℚ)| := abs_sub_le _ _ _
    rw [abs_sub_comm ((n : ℚ) / d)] at htri
    linarith

theorem rheAt_tie_even (n : Int) (d : Nat) (hd : 0 < d)
    (htie : (n : ℚ) / d - (⌊(n : ℚ) / d⌋ : ℚ) = 1 / 2) :
    rheAt n d % 2 = 0 ∧ |(rheAt n d : ℚ) - (n : ℚ) / d| = 1 / 2 := by
  have hfq : ((n / (d : Int) : Int) : ℚ) = (⌊(n : ℚ) / d⌋ : ℚ) := by
    exact_mod_cast congrArg (fun z : Int => (z : ℚ)) (rheAt_floor_eq n d)
  have hcond := (rheAt_tie_iff n d hd).mpr htie
  unfold rheAt
  rw [if_pos hcond]
  by_cases hev : n / (d : Int) % 2 = 0
  · rw [if_pos hev]
    refine ⟨hev, ?_⟩
    have : ((n / (d : Int) : Int) : ℚ) - (n : ℚ) / d = -(1 / 2) := by linarith
    rw [this, abs_neg, abs_of_pos (by norm_num : (0 : ℚ) < 1 / 2)]
  · rw [if_neg hev]
    refine ⟨by omega, ?_⟩
    have : ((n / (d : Int) + 1 : Int) : ℚ) - (n : ℚ) / d = 1 / 2 := by
      push_cast
      linarith
    rw [this, abs_of_pos (by norm_num : (0 : ℚ) < 1 / 2)]

theorem scale_repr (q : ℚ) : ((10 * q.num : Int) : ℚ) / ((q.den : Nat) : ℚ) = 10 * q := by
  push_cast
  rw [mul_div_assoc, Rat.num_div_den]

theorem round1_eq (q : ℚ) :
    round1 q = ((rheAt (10 * q.num) q.den : Int) : ℚ) / 10 := by
  rw [round1, Rat.divInt_eq_div]
  norm_num

/-! ## Record lookups -/

theorem lookup_name (r : SourceRow) :
    List.lookup kName (cleanRow r) = some (fillName r.food_name) := rfl

theorem lookup_calories (r : SourceRow) :
    List.lookup kCalories (cleanRow r) = some (JAtom.jfloat (cleanNum r.energy_kcal)) := rfl

theorem lookup_proteinG (r : SourceRow) :
    List.lookup kProteinG (cleanRow r) = some (JAtom.jfloat (cleanNum r.protein_g)) := rfl

theorem lookup_fatG (r : SourceRow) :
    List.lookup kFatG (cleanRow r) = some (JAtom.jfloat (cleanNum r.fat_g)) := rfl

theorem lookup_carbG (r : SourceRow) :
    List.lookup kCarbG (cleanRow r) = some (JAtom.jfloat (cleanNum r.carb_g)) := rfl

theorem lookup_sodiumMg (r : SourceRow) :
    List.lookup kSodiumMg (cleanRow r) = some (JAtom.jfloat (cleanNum r.sodium_mg)) := rfl

theorem lookup_potassiumMg (r : SourceRow) :
    List.lookup kPotassiumMg (cleanRow r) = some (JAtom.jfloat (cleanNum r.potassium_mg)) := rfl

theorem lookup_phosphorusMg (r : SourceRow) :
    List.lookup kPhosphorusMg (cleanRow r) = some (JAtom.jfloat (cleanNum r.phosphorus_mg)) := rfl

theorem cleanNum_some (v : ℚ) : cleanNum (some v) = round1 v := rfl

theorem cleanNum_none : cleanNum none = 0 := by decide

theorem lookup_num_present (r : SourceRow) (acc : SourceRow → Option ℚ)
    (key : String) (hmem : (acc, key) ∈ numFields) (v : ℚ) (hv : acc r = some v) :
    List.lookup key (cleanRow r) = some (JAtom.jfloat (round1 v)) := by
  simp only [numFields, List.mem_cons, List.not_mem_nil, or_false,
    Prod.mk.injEq] at hmem
  rcases hmem with h | h | h | h | h | h | h
  · obtain ⟨ha, hk⟩ := h
    subst ha; subst hk
    rw [lookup_calories, hv, cleanNum_some]
  · obtain ⟨ha, hk⟩ := h
    subst ha; subst hk
    rw [lookup_proteinG, hv, cleanNum_some]
  · obtain ⟨ha, hk⟩ := h
    subst ha; subst hk
    rw [lookup_fatG, hv, cleanNum_some]
  · obtain ⟨ha, hk⟩ := h
    subst ha; subst hk
    rw [lookup_carbG, hv, cleanNum_some]
  · obtain ⟨ha, hk⟩ := h
    subst ha; subst hk
    rw [lookup_sodiumMg, hv, cleanNum_some]
  · obtain ⟨ha, hk⟩ := h
    subst ha; subst hk
    rw [lookup_potassiumMg, hv, cleanNum_some]
  · obtain ⟨ha, hk⟩ := h
    subst ha; subst hk
    rw [lookup_phosphorusMg, hv, cleanNum_some]

theorem lookup_num_absent (r : SourceRow) (acc : SourceRow → Option ℚ)
    (key : String) (hmem : (acc, key) ∈ numFields) (hv : acc r = none) :
    List.lookup key (cleanRow r) = some (JAtom.jfloat 0) := by
  simp only [numFields, List.mem_cons, List.not_mem_nil, or_false,
    Prod.mk.injEq] at hmem
  rcases hmem with h | h | h | h | h | h | h
  · obtain ⟨ha, hk⟩ := h
    subst ha; subst hk
    rw [lookup_calories, hv, cleanNum_none]
  · obtain ⟨ha, hk⟩ := h
    subst ha; subst hk
    rw [lookup_proteinG, hv, cleanNum_none]
  · obtain ⟨ha, hk⟩ := h
    subst ha; subst hk
    rw [lookup_fatG, hv, cleanNum_none]
  · obtain ⟨ha, hk⟩ := h
    subst ha; subst hk
    rw [lookup_carbG, hv, cleanNum_none]
  · obtain ⟨ha, hk⟩ := h
    subst ha; subst hk
    rw [lookup_sodiumMg, hv, cleanNum_none]
  · obtain ⟨ha, hk⟩ := h
    subst ha; subst hk
    rw [lookup_potassiumMg, hv, cleanNum_none]
  · obtain ⟨ha, hk⟩ := h
    subst ha; subst hk
    rw [lookup_phosphorusMg, hv, cleanNum_none]

theorem round1_nearest (v : ℚ) (m : Int) :
    |round1 v - v| ≤ |(m : ℚ) / 10 - v| := by
  have h := rheAt_nearest (10 * v.num) v.den v.den_pos m
  rw [scale_repr] at h
  rw [round1_eq]
  have e1 : ((rheAt (10 * v.num) v.den : Int) : ℚ) / 10 - v =
      (((rheAt (10 * v.num) v.den : Int) : ℚ) - 10 * v) / 10 := by ring
  have e2 : (m : ℚ) / 10 - v = ((m : ℚ) - 10 * v) / 10 := by ring
  rw [e1, e2, abs_div, abs_div]
  have h10 : |(10 : ℚ)| = 10 := by norm_num
  rw [h10]
  gcongr

/-- C1: for every source row and every numeric source field that is
present, the output field under the rename mapping is the source value
rounded to one decimal place: the stored value is round1 of the
source, and round1 yields a multiple of one tenth that is at least as
close to the source as every other tenth, resolving exact ties to an
even count of tenths (round half to even, which is one of the two
admitted deterministic rules). -/
theorem C1_present_fields_rounded (r : SourceRow) (acc : SourceRow → Option ℚ)
    (key : String) (hmem : (acc, key) ∈ numFields) (v : ℚ) (hv : acc r = some v) :
    List.lookup key (cleanRow r) = some (JAtom.jfloat (round1 v)) ∧
      ∃ k : Int, round1 v = (k : ℚ) / 10 ∧
        (∀ m : Int, |(k : ℚ) / 10 - v| ≤ |(m : ℚ) / 10 - v|) ∧
        (10 * v - (⌊10 * v⌋ : ℚ) = 1 / 2 → k % 2 = 0) := by
  refine ⟨lookup_num_present r acc key hmem v hv,
    rheAt (10 * v.num) v.den, round1_eq v, ?_, ?_⟩
  · intro m
    have h := round1_nearest v m
    rw [round1_eq] at h
    exact h
  · intro ht
    refine (rheAt_tie_even (10 * v.num) v.den v.den_pos ?_).1
    rw [scale_repr]
    exact ht

/-- Witness for C1: the rice row's calorie value 130.456. -/
theorem C1_present_fields_rounded_witness :
    ((SourceRow.energy_kcal, kCalories) ∈ numFields ∧
      riceRow.energy_kcal = some (Rat.divInt 130456 1000)) ∧
    (List.lookup kCalories (cleanRow riceRow) =
        some (JAtom.jfloat (round1 (Rat.divInt 130456 1000))) ∧
      ∃ k : Int, round1 (Rat.divInt 130456 1000) = (k : ℚ) / 10 ∧
        (∀ m : Int, |(k : ℚ) / 10 - Rat.divInt 130456 1000| ≤
          |(m : ℚ) / 10 - Rat.divInt 130456 1000|) ∧
        (10 * Rat.divInt 130456 1000 - (⌊10 * Rat.divInt 130456 1000⌋ : ℚ) = 1 / 2 →
          k % 2 = 0)) :=
  ⟨⟨List.Mem.head _, rfl⟩,
    C1_present_fields_rounded riceRow SourceRow.energy_kcal kCalories
      (List.Mem.head _) (Rat.divInt 130456 1000) rfl⟩

/-- C2: for every source row and every numeric source field that is
absent, the output field under the rename mapping equals 0. -/
theorem C2_absent_fields_zero (r : SourceRow) (acc : SourceRow → Option ℚ)
    (key : String) (hmem : (acc, key) ∈ numFields) (hv : acc r = none) :
    List.lookup key (cleanRow r) = some (JAtom.jfloat 0) :=
  lookup_num_absent r acc key hmem hv

/-- Witness for C2: the rice row's protein cell is empty. -/
theorem C2_absent_fields_zero_witness :
    ((SourceRow.protein_g, kProteinG) ∈ numFields ∧ riceRow.protein_g = none) ∧
    List.lookup kProteinG (cleanRow riceRow) = some (JAtom.jfloat 0) :=
  ⟨⟨List.Mem.tail _ (List.Mem.head _), rfl⟩,
    C2_absent_fields_zero riceRow SourceRow.protein_g kProteinG
      (List.Mem.tail _ (List.Mem.head _)) rfl⟩

/-- C9: on a value exactly halfway between two consecutive tenths the
implemented rounding stores the neighbour with an even count of
tenths, at distance exactly one twentieth. -/
theorem C9_ties_round_to_even (r : SourceRow) (acc : SourceRow → Option ℚ)
    (key : String) (hmem : (acc, key) ∈ numFields) (v : ℚ) (hv : acc r = some v)
    (htie : 10 * v - (⌊10 * v⌋ : ℚ) = 1 / 2) :
    ∃ k : Int, k % 2 = 0 ∧
      List.lookup key (cleanRow r) = some (JAtom.jfloat ((k : ℚ) / 10)) ∧
      |(k : ℚ) / 10 - v| = 1 / 20 := by
  have htie2 : ((10 * v.num : Int) : ℚ) / ((v.den : Nat) : ℚ) -
      (⌊((10 * v.num : Int) : ℚ) / ((v.den : Nat) : ℚ)⌋ : ℚ) = 1 / 2 := by
    rw [scale_repr]
    exact htie
  obtain ⟨hk0, hkd⟩ := rheAt_tie_even (10 * v.num) v.den v.den_pos htie2
  rw [scale_repr] at hkd
  refine ⟨rheAt (10 * v.num) v.den, hk0, ?_, ?_⟩
  · rw [lookup_num_present r acc key hmem v hv, ← round1_eq]
  · have e1 : ((rheAt (10 * v.num) v.den : Int) : ℚ) / 10 - v =
        (((rheAt (10 * v.num) v.den : Int) : ℚ) - 10 * v) / 10 := by ring
    rw [e1, abs_div]
    have h10 : |(10 : ℚ)| = 10 := by norm_num
    rw [h10, hkd]
    norm_num

/-- The tie row's calorie value 0.25 sits exactly between 0.2 and
0.3. -/
theorem tie_quarter :
    10 * Rat.divInt 1 4 - (⌊10 * Rat.divInt 1 4⌋ : ℚ) = 1 / 2 := by
  have hq : (10 : ℚ) * Rat.divInt 1 4 = 5 / 2 := by
    rw [Rat.divInt_eq_div]
    norm_num
  rw [hq]
  have hf : (⌊(5 / 2 : ℚ)⌋ : Int) = 2 := by
    rw [Int.floor_eq_iff]
    norm_num
  rw [hf]
  norm_num

/-- Witness for C9: the tie row's calorie value 0.25. -/
theorem C9_ties_round_to_even_witness :
    ((SourceRow.energy_kcal, kCalories) ∈ numFields ∧
      tieRow.energy_kcal = some (Rat.divInt 1 4) ∧
      10 * Rat.divInt 1 4 - (⌊10 * Rat.divInt 1 4⌋ : ℚ) = 1 / 2) ∧
    ∃ k : Int, k % 2 = 0 ∧
      List.lookup kCalories (cleanRow tieRow) = some (JAtom.jfloat ((k : ℚ) / 10)) ∧
      |(k : ℚ) / 10 - Rat.divInt 1 4| = 1 / 20 :=
  ⟨⟨List.Mem.head _, rfl, tie_quarter⟩,
    C9_ties_round_to_even tieRow SourceRow.energy_kcal kCalories
      (List.Mem.head _) (Rat.divInt 1 4) rfl tie_quarter⟩

/-! ## Shape of the converted table -/

theorem outKeys_eq_rename : outKeys = relevant_cols.map Prod.snd := rfl

theorem cleanRow_keys (r : SourceRow) :
    (cleanRow r).map Prod.fst = outKeys := rfl

theorem cleanTable_ok (t : RawTable) (l : List Record)
    (h : cleanTable t = Except.ok l) : l = t.rows.map cleanRow := by
  unfold cleanTable at h
  split at h
  · exact Except.noConfusion h
  · injection h with h2
    exact h2.symm

/-- C3: the conversion keeps exactly one output record per source row,
in the original row order. -/
theorem C3_row_bijection_in_order (t : RawTable) (l : List Record)
    (h : cleanTable t = Except.ok l) :
    l.length = t.rows.length ∧
      ∀ i : Nat, l[i]? = (t.rows[i]?).map cleanRow := by
  have hl := cleanTable_ok t l h
  subst hl
  refine ⟨by simp, fun i => ?_⟩
  simp

/-- Witness for C3: the one-row rice table. -/
theorem C3_row_bijection_in_order_witness :
    cleanTable riceTable = Except.ok (riceTable.rows.map cleanRow) ∧
    ((riceTable.rows.map cleanRow).length = riceTable.rows.length ∧
      ∀ i : Nat, (riceTable.rows.map cleanRow)[i]? =
        (riceTable.rows[i]?).map cleanRow) :=
  ⟨rfl, C3_row_bijection_in_order riceTable (riceTable.rows.map cleanRow) rfl⟩

/-- C4 (counterexample): on a row whose food_name cell is empty the
name field of the output record is the number 0, which is not text, so
the claim that name is text even for absent food_name fails. -/
theorem C4_name_number_on_null_cex :
    List.lookup kName (cleanRow nullNameRow) = some (JAtom.jint 0) ∧
      ∀ s : String, JAtom.jint 0 ≠ JAtom.jstr s :=
  ⟨rfl, fun _ h => JAtom.noConfusion h⟩

/-- C4 (amended): every output key is present; the seven numeric keys
always hold numbers; name holds the source text when food_name is
text, but holds the number 0 when food_name is absent. -/
theorem C4_keys_present_name_typed (r : SourceRow) :
    (∀ key ∈ outKeys, (List.lookup key (cleanRow r)).isSome = true) ∧
    (∀ (acc : SourceRow → Option ℚ) (key : String), (acc, key) ∈ numFields →
      ∃ q : ℚ, List.lookup key (cleanRow r) = some (JAtom.jfloat q)) ∧
    (∀ s : String, r.food_name = NameCell.text s →
      List.lookup kName (cleanRow r) = some (JAtom.jstr s)) ∧
    (r.food_name = NameCell.null →
      List.lookup kName (cleanRow r) = some (JAtom.jint 0)) := by
  refine ⟨?_, ?_, ?_, ?_⟩
  · intro key hkey
    simp only [outKeys, List.mem_cons, List.not_mem_nil, or_false] at hkey
    rcases hkey with rfl | rfl | rfl | rfl | rfl | rfl | rfl | rfl <;> rfl
  · intro acc key hmem
    simp only [numFields, List.mem_cons, List.not_mem_nil, or_false,
      Prod.mk.injEq] at hmem
    rcases hmem with ⟨ha, hk⟩ | ⟨ha, hk⟩ | ⟨ha, hk⟩ | ⟨ha, hk⟩ | ⟨ha, hk⟩ |
      ⟨ha, hk⟩ | ⟨ha, hk⟩ <;> subst ha <;> subst hk
    · exact ⟨cleanNum r.energy_kcal, lookup_calories r⟩
    · exact ⟨cleanNum r.protein_g, lookup_proteinG r⟩
    · exact ⟨cleanNum r.fat_g, lookup_fatG r⟩
    · exact ⟨cleanNum r.carb_g, lookup_carbG r⟩
    · exact ⟨cleanNum r.sodium_mg, lookup_sodiumMg r⟩
    · exact ⟨cleanNum r.potassium_mg, lookup_potassiumMg r⟩
    · exact ⟨cleanNum r.phosphorus_mg, lookup_phosphorusMg r⟩
  · intro s hs
    rw [lookup_name, hs]
    rfl
  · intro h0
    rw [lookup_name, h0]
    rfl

/-- Witness for C4 (amended): the rice row has a text name and it is
passed through as text. -/
theorem C4_keys_present_name_typed_witness :
    riceRow.food_name = NameCell.text "Rice" ∧
    List.lookup kName (cleanRow riceRow) = some (JAtom.jstr "Rice") :=
  ⟨rfl, (C4_keys_present_name_typed riceRow).2.2.1 "Rice" rfl⟩

/-- C5: on success every output record is an object with exactly the
eight fixed keys, in order, with no duplicate and none missing. -/
theorem C5_exactly_eight_keys (t : RawTable) (l : List Record)
    (h : cleanTable t = Except.ok l) :
    outKeys.Nodup ∧ outKeys.length = 8 ∧
      ∀ rec ∈ l, rec.map Prod.fst = outKeys := by
  refine ⟨by decide, rfl, ?_⟩
  intro rec hrec
  have hl := cleanTable_ok t l h
  subst hl
  obtain ⟨row, _, rfl⟩ := List.mem_map.mp hrec
  exact cleanRow_keys row

/-- Witness for C5: the one-row rice table. -/
theorem C5_exactly_eight_keys_witness :
    cleanTable riceTable = Except.ok (riceTable.rows.map cleanRow) ∧
    (outKeys.Nodup ∧ outKeys.length = 8 ∧
      ∀ rec ∈ riceTable.rows.map cleanRow, rec.map Prod.fst = outKeys) :=
  ⟨rfl, C5_exactly_eight_keys riceTable (riceTable.rows.map cleanRow) rfl⟩

/-! ## Error handling -/

/-- C6: when the run fails before the write step (missing file,
missing sheet, or missing required column) the destination file is not
created and not modified, and the failure is reported as the printed
diagnostic. -/
theorem C6_no_write_on_early_error (load : LoadOutcome) (fs : FS)
    (h : load = LoadOutcome.noFile ∨ load = LoadOutcome.noSheet ∨
      ∃ t e, load = LoadOutcome.ok t ∧ cleanTable t = Except.error e) :
    (generate_recipe_json load fs).fst = fs ∧
      ∃ e, (generate_recipe_json load fs).snd =
        Outcome.returned ("An error occurred: " ++ errMsg e) := by
  rcases h with rfl | rfl | ⟨t, e, rfl, ht⟩
  · exact ⟨rfl, PyError.fileNotFound, rfl⟩
  · exact ⟨rfl, PyError.sheetMissing, rfl⟩
  · simp only [generate_recipe_json, pipeline, ht]
    exact ⟨trivial, e, rfl⟩

/-- Witness for C6: a table missing the phosphorus column over an
existing destination. -/
theorem C6_no_write_on_early_error_witness :
    (LoadOutcome.ok missTable = LoadOutcome.noFile ∨
      LoadOutcome.ok missTable = LoadOutcome.noSheet ∨
      ∃ t e, LoadOutcome.ok missTable = LoadOutcome.ok t ∧
        cleanTable t = Except.error e) ∧
    ((generate_recipe_json (LoadOutcome.ok missTable) fsOld).fst = fsOld ∧
      ∃ e, (generate_recipe_json (LoadOutcome.ok missTable) fsOld).snd =
        Outcome.returned ("An error occurred: " ++ errMsg e)) :=
  ⟨Or.inr (Or.inr ⟨missTable, PyError.keyError "phosphorus_mg", rfl, rfl⟩),
    C6_no_write_on_early_error (LoadOutcome.ok missTable) fsOld
      (Or.inr (Or.inr ⟨missTable, PyError.keyError "phosphorus_mg", rfl, rfl⟩))⟩

/-- C7: the top-level call always returns normally with exactly one
printed line, the exit status is 0 on success and failure alike, and
the line is the pipeline's success message or the diagnostic built
from the caught exception. -/
theorem C7_top_level_never_raises (load : LoadOutcome) (fs : FS) :
    (∃ s, (generate_recipe_json load fs).snd = Outcome.returned s) ∧
    exitCode (generate_recipe_json load fs).snd = 0 ∧
    (∀ m, (pipeline load fs).snd = Except.ok m →
      (generate_recipe_json load fs).snd = Outcome.returned m) ∧
    (∀ e, (pipeline load fs).snd = Except.error e →
      (generate_recipe_json load fs).snd =
        Outcome.returned ("An error occurred: " ++ errMsg e)) := by
  rcases hp : pipeline load fs with ⟨fs2, r⟩
  unfold generate_recipe_json
  rw [hp]
  cases r with
  | ok m =>
    refine ⟨⟨m, rfl⟩, rfl, ?_, ?_⟩
    · intro m2 hm
      injection hm with h
      subst h
      rfl
    · intro e he
      exact Except.noConfusion he
  | error e =>
    refine ⟨⟨"An error occurred: " ++ errMsg e, rfl⟩, rfl, ?_, ?_⟩
    · intro m2 hm
      exact Except.noConfusion hm
    · intro e2 he
      injection he with h
      subst h
      rfl

/-- Witness for C7: a run whose source file is missing still returns
normally, prints the diagnostic, and exits 0. -/
theorem C7_top_level_never_raises_witness :
    (pipeline LoadOutcome.noFile fsEmpty).snd =
      Except.error PyError.fileNotFound ∧
    (generate_recipe_json LoadOutcome.noFile fsEmpty).snd =
      Outcome.returned ("An error occurred: " ++ errMsg PyError.fileNotFound) ∧
    exitCode (generate_recipe_json LoadOutcome.noFile fsEmpty).snd = 0 :=
  ⟨rfl,
    (C7_top_level_never_raises LoadOutcome.noFile fsEmpty).2.2.2
      PyError.fileNotFound rfl,
    (C7_top_level_never_raises LoadOutcome.noFile fsEmpty).2.1⟩

/-- C10: on a table whose transform succeeds but whose record list
cannot be serialized, the destination file has already been opened and
truncated when the error is raised: after the run the old content is
gone and the file holds exactly the chunks streamed before the
failure, while the diagnostic is printed. -/
theorem C10_truncated_dest_on_ser_failure :
    (json_dump (objTable.rows.map cleanRow)).snd = false ∧
    fsOld.dest = some "OLD" ∧
    (generate_recipe_json (LoadOutcome.ok objTable) fsOld).fst.dest =
      some "[\x0a  \x7b\x0a    \"name\": " ∧
    ("[\x0a  \x7b\x0a    \"name\": " : String) ≠ "OLD" ∧
    (generate_recipe_json (LoadOutcome.ok objTable) fsOld).snd =
      Outcome.returned ("An error occurred: " ++ errMsg PyError.typeError) := by
  refine ⟨by decide, rfl, by decide, by decide, by decide⟩

/-! ## Round trip: whitespace and hex -/

theorem skipWs_cons_not (c : Char) (cs : List Char)
    (h : ¬(c = ' ' ∨ c = '\x0a' ∨ c = '\x09' ∨ c = '\x0d')) :
    skipWs (c :: cs) = c :: cs := by
  simp only [skipWs]
  rw [if_neg h]

theorem skipWs_nl0 (cs : List Char) : skipWs (nl0 ++ cs) = skipWs cs := rfl

theorem skipWs_nl2 (cs : List Char) : skipWs (nl2 ++ cs) = skipWs cs := rfl

theorem skipWs_nl4 (cs : List Char) : skipWs (nl4 ++ cs) = skipWs cs := rfl

theorem hexVal_hexChar (d : Nat) (hd : d < 16) : hexVal (hexChar d) = some d := by
  interval_cases d <;> decide

theorem parse4Hex_hex4 (n : Nat) (hn : n < 65536) (rest : List Char) :
    parse4Hex (hex4 n ++ rest) = some (n, rest) := by
  have h1 : hexVal (hexChar (n / 4096 % 16)) = some (n / 4096 % 16) :=
    hexVal_hexChar _ (Nat.mod_lt _ (by norm_num))
  have h2 : hexVal (hexChar (n / 256 % 16)) = some (n / 256 % 16) :=
    hexVal_hexChar _ (Nat.mod_lt _ (by norm_num))
  have h3 : hexVal (hexChar (n / 16 % 16)) = some (n / 16 % 16) :=
    hexVal_hexChar _ (Nat.mod_lt _ (by norm_num))
  have h4 : hexVal (hexChar (n % 16)) = some (n % 16) :=
    hexVal_hexChar _ (Nat.mod_lt _ (by norm_num))
  simp only [hex4, List.cons_append, List.nil_append, parse4Hex, h1, h2, h3, h4]
  congr 2
  omega

theorem escapeChar_head (c : Char) :
    ∃ hd tl, escapeChar c = hd :: tl ∧ hd ≠ '"' := by
  unfold escapeChar
  split_ifs with h1 h2 h3 h4 h5 h6 h7 h8 h9
  · exact ⟨'\\', _, rfl, by decide⟩
  · exact ⟨'\\', _, rfl, by decide⟩
  · exact ⟨'\\', _, rfl, by decide⟩
  · exact ⟨'\\', _, rfl, by decide⟩
  · exact ⟨'\\', _, rfl, by decide⟩
  · exact ⟨'\\', _, rfl, by decide⟩
  · exact ⟨'\\', _, rfl, by decide⟩
  · exact ⟨'\\', _, rfl, by decide⟩
  · exact ⟨'\\', _, rfl, by decide⟩
  · exact ⟨c, [], rfl, h1⟩

theorem parseOneChar_uescape (n : Nat) (rest : List Char) (hn : n < 65536)
    (hns : ¬(55296 ≤ n ∧ n < 56320)) (hnl : ¬(56320 ≤ n ∧ n < 57344)) :
    parseOneChar ('\\' :: 'u' :: (hex4 n ++ rest)) = some (Char.ofNat n, rest) := by
  have hp := parse4Hex_hex4 n hn rest
  simp [parseOneChar, hp, hns, hnl]

theorem parseOneChar_surrogates (n : Nat) (rest : List Char)
    (hn : 65536 ≤ n) (hn2 : n < 1114112) :
    parseOneChar (('\\' :: 'u' :: hex4 (55296 + (n - 65536) / 1024)) ++
      (('\\' :: 'u' :: hex4 (56320 + (n - 65536) % 1024)) ++ rest)) =
      some (Char.ofNat n, rest) := by
  have hhi : 55296 + (n - 65536) / 1024 < 65536 := by omega
  have hlo : 56320 + (n - 65536) % 1024 < 65536 := by omega
  have hp1 := parse4Hex_hex4 (55296 + (n - 65536) / 1024) hhi
    ('\\' :: 'u' :: (hex4 (56320 + (n - 65536) % 1024) ++ rest))
  have hp2 := parse4Hex_hex4 (56320 + (n - 65536) % 1024) hlo rest
  have hc1 : 55296 ≤ 55296 + (n - 65536) / 1024 ∧ 55296 + (n - 65536) / 1024 < 56320 := by
    omega
  have hc2 : 56320 ≤ 56320 + (n - 65536) % 1024 ∧ 56320 + (n - 65536) % 1024 < 57344 := by
    omega
  have harith : 65536 + 1024 * (55296 + (n - 65536) / 1024 - 55296) +
      (56320 + (n - 65536) % 1024 - 56320) = n := by omega
  simp only [parseOneChar, List.cons_append]
  rw [hp1]
  simp [hp2, hc1, hc2, harith]
  exact congrArg Char.ofNat (by omega)

theorem parseOneChar_escapeChar (c : Char) (rest : List Char) :
    parseOneChar (escapeChar c ++ rest) = some (c, rest) := by
  by_cases h1 : c = '"'
  · subst h1; rfl
  by_cases h2 : c = '\\'
  · subst h2; rfl
  by_cases h3 : c = '\x08'
  · subst h3; rfl
  by_cases h4 : c = '\x09'
  · subst h4; rfl
  by_cases h5 : c = '\x0a'
  · subst h5; rfl
  by_cases h6 : c = '\x0c'
  · subst h6; rfl
  by_cases h7 : c = '\x0d'
  · subst h7; rfl
  have hval : c.toNat < 55296 ∨ (57343 < c.toNat ∧ c.toNat < 1114112) := c.valid
  by_cases h8 : c.toNat < 32 ∨ 127 ≤ c.toNat
  · by_cases h9 : c.toNat < 65536
    · have hesc : escapeChar c = '\\' :: 'u' :: hex4 c.toNat := by
        unfold escapeChar
        rw [if_neg h1, if_neg h2, if_neg h3, if_neg h4, if_neg h5, if_neg h6,
          if_neg h7, if_pos h8, if_pos h9]
      rw [hesc]
      rw [show ('\\' :: 'u' :: hex4 c.toNat) ++ rest =
        '\\' :: 'u' :: (hex4 c.toNat ++ rest) from rfl]
      rw [parseOneChar_uescape c.toNat rest h9 (by omega) (by omega)]
      rw [Char.ofNat_toNat]
    · have hesc : escapeChar c =
          ('\\' :: 'u' :: hex4 (55296 + (c.toNat - 65536) / 1024)) ++
          ('\\' :: 'u' :: hex4 (56320 + (c.toNat - 65536) % 1024)) := by
        unfold escapeChar
        rw [if_neg h1, if_neg h2, if_neg h3, if_neg h4, if_neg h5, if_neg h6,
          if_neg h7, if_pos h8, if_neg h9]
      rw [hesc, List.append_assoc]
      rw [parseOneChar_surrogates c.toNat rest (by omega) (by omega)]
      rw [Char.ofNat_toNat]
  · have hesc : escapeChar c = [c] := by
      unfold escapeChar
      rw [if_neg h1, if_neg h2, if_neg h3, if_neg h4, if_neg h5, if_neg h6,
        if_neg h7, if_neg h8]
    rw [hesc]
    simp [parseOneChar, h1, h2]

theorem parseStringBody_escape (cs : List Char) :
    ∀ (rest : List Char) (fuel : Nat), cs.length < fuel →
      parseStringBody fuel (escapeString cs ++ ('"' :: rest)) = some (cs, rest) := by
  induction cs with
  | nil =>
    intro rest fuel hf
    cases fuel with
    | zero => omega
    | succ f => rfl
  | cons c cs ih =>
    intro rest fuel hf
    cases fuel with
    | zero => omega
    | succ f =>
      obtain ⟨hd, tl, hec, hne⟩ := escapeChar_head c
      have hstep : escapeString (c :: cs) ++ ('"' :: rest) =
          hd :: (tl ++ (escapeString cs ++ ('"' :: rest))) := by
        show (escapeChar c ++ escapeString cs) ++ ('"' :: rest) = _
        rw [hec]
        simp [List.append_assoc]
      rw [hstep]
      simp only [parseStringBody]
      rw [if_neg hne]
      have h1 : parseOneChar (hd :: (tl ++ (escapeString cs ++ ('"' :: rest)))) =
          some (c, escapeString cs ++ ('"' :: rest)) := by
        have h2 : hd :: (tl ++ (escapeString cs ++ ('"' :: rest))) =
            escapeChar c ++ (escapeString cs ++ ('"' :: rest)) := by
          rw [hec]
          rfl
        rw [h2]
        exact parseOneChar_escapeChar c _
      simp only [h1]
      have hcs : cs.length < f := by
        simp only [List.length_cons] at hf
        omega
      simp only [ih rest f hcs]

/-! ## Round trip: numbers -/

theorem dchar_digit (d : Nat) (hd : d < 10) :
    (Char.ofNat (48 + d)).isDigit = true ∧ (Char.ofNat (48 + d)).toNat - 48 = d := by
  interval_cases d <;> exact ⟨by decide, by decide⟩

theorem natCharsAux_parse (fuel : Nat) :
    ∀ (n : Nat), n < fuel → ∀ (acc k : Nat) (rest : List Char),
      parseDigitsCnt acc k (natCharsAux fuel n ++ rest) =
        parseDigitsCnt (acc * 10 ^ (natCharsAux fuel n).length + n)
          (k + (natCharsAux fuel n).length) rest := by
  induction fuel with
  | zero =>
    intro n hn
    omega
  | succ f ih =>
    intro n hn acc k rest
    cases n with
    | zero => simp [natCharsAux]
    | succ m =>
      have hlt : (m + 1) / 10 < f := by omega
      obtain ⟨hdig, hval⟩ := dchar_digit ((m + 1) % 10) (Nat.mod_lt _ (by norm_num))
      have hlen : (natCharsAux (f + 1) (m + 1)).length =
          (natCharsAux f ((m + 1) / 10)).length + 1 := by
        simp [natCharsAux]
      rw [hlen]
      show parseDigitsCnt acc k
          ((natCharsAux f ((m + 1) / 10) ++ [Char.ofNat (48 + (m + 1) % 10)]) ++ rest) = _
      rw [List.append_assoc]
      rw [ih ((m + 1) / 10) hlt acc k ([Char.ofNat (48 + (m + 1) % 10)] ++ rest)]
      show parseDigitsCnt _ _ (Char.ofNat (48 + (m + 1) % 10) :: rest) = _
      simp only [parseDigitsCnt, hdig, if_true, hval]
      have harith : 10 * (acc * 10 ^ (natCharsAux f ((m + 1) / 10)).length + (m + 1) / 10) +
          (m + 1) % 10 =
          acc * 10 ^ ((natCharsAux f ((m + 1) / 10)).length + 1) + (m + 1) := by
        rw [pow_succ, ← mul_assoc]
        generalize acc * 10 ^ (natCharsAux f ((m + 1) / 10)).length = A
        omega
      rw [harith, Nat.add_assoc]

theorem parseDigitsCnt_stop (acc k : Nat) (rest : List Char) (h : digitBreak rest) :
    parseDigitsCnt acc k rest = (acc, k, rest) := by
  cases rest with
  | nil => rfl
  | cons c cs2 =>
    have hc : c.isDigit = false := h
    simp [parseDigitsCnt, hc]

theorem numBreak_digitBreak (rest : List Char) (h : numBreak rest) : digitBreak rest := by
  cases rest with
  | nil => trivial
  | cons c cs => exact h.1

theorem parseDigitsCnt_natChars (n : Nat) (rest : List Char) (h : digitBreak rest) :
    ∃ L, 0 < L ∧ parseDigitsCnt 0 0 (natChars n ++ rest) = (n, L, rest) := by
  by_cases h0 : n = 0
  · subst h0
    refine ⟨1, by norm_num, ?_⟩
    show parseDigitsCnt 0 0 ('0' :: rest) = (0, 1, rest)
    simp only [parseDigitsCnt]
    norm_num
    exact parseDigitsCnt_stop 0 1 rest h
  · refine ⟨(natCharsAux (n + 1) n).length, ?_, ?_⟩
    · cases n with
      | zero => omega
      | succ m => simp [natCharsAux]
    · simp only [natChars, if_neg h0]
      rw [natCharsAux_parse (n + 1) n (by omega) 0 0 rest]
      rw [parseDigitsCnt_stop _ _ rest h]
      simp

theorem natCharsAux_digits (fuel : Nat) :
    ∀ n, ∀ c ∈ natCharsAux fuel n, c.isDigit = true := by
  induction fuel with
  | zero =>
    intro n c hc
    simp [natCharsAux] at hc
  | succ f ih =>
    intro n c hc
    cases n with
    | zero => simp [natCharsAux] at hc
    | succ m =>
      simp only [natCharsAux, List.mem_append, List.mem_singleton] at hc
      rcases hc with hc | hc
      · exact ih _ c hc
      · subst hc
        exact (dchar_digit ((m + 1) % 10) (Nat.mod_lt _ (by norm_num))).1

theorem natChars_cons (n : Nat) :
    ∃ c cs, natChars n = c :: cs ∧ c.isDigit = true := by
  by_cases h0 : n = 0
  · subst h0
    exact ⟨'0', [], rfl, by decide⟩
  · have hne : natChars n ≠ [] := by
      simp only [natChars, if_neg h0]
      cases n with
      | zero => omega
      | succ m => simp [natCharsAux]
    obtain ⟨c, cs, hc⟩ := List.exists_cons_of_ne_nil hne
    refine ⟨c, cs, hc, ?_⟩
    have hmem : c ∈ natChars n := by
      rw [hc]
      exact List.Mem.head _
    simp only [natChars, if_neg h0] at hmem
    exact natCharsAux_digits (n + 1) n c hmem

theorem digit_not_break (c : Char) (h : c.isDigit = true) :
    c ≠ '-' ∧ c ≠ '"' ∧ c ≠ '.' ∧
      ¬(c = ' ' ∨ c = '\x0a' ∨ c = '\x09' ∨ c = '\x0d') := by
  refine ⟨?_, ?_, ?_, ?_⟩
  · intro hc
    subst hc
    exact absurd h (by decide)
  · intro hc
    subst hc
    exact absurd h (by decide)
  · intro hc
    subst hc
    exact absurd h (by decide)
  · intro hc
    rcases hc with hc | hc | hc | hc <;> subst hc <;> exact absurd h (by decide)

theorem parseUnsigned_natChars (n : Nat) (rest : List Char) (hrest : numBreak rest) :
    parseUnsigned (natChars n ++ rest) = some (JAtom.jint (n : Int), rest) := by
  obtain ⟨L, hL, hp⟩ := parseDigitsCnt_natChars n rest (numBreak_digitBreak rest hrest)
  unfold parseUnsigned
  rw [hp]
  have hL0 : ¬ L = 0 := by omega
  cases rest with
  | nil => simp [hL0]
  | cons c2 r2 =>
    have hdot : c2 ≠ '.' := hrest.2
    simp [hL0, hdot]

theorem parseNumber_renderInt (v : Int) (rest : List Char) (hrest : numBreak rest) :
    parseNumber (renderInt v ++ rest) = some (JAtom.jint v, rest) := by
  by_cases hv : v < 0
  · have hr : renderInt v = '-' :: natChars v.natAbs := by
      simp [renderInt, hv]
    rw [hr, List.cons_append]
    simp only [parseNumber]
    rw [parseUnsigned_natChars v.natAbs rest hrest]
    simp [negAtom]
    rw [abs_of_neg hv]
    ring
  · have hr : renderInt v = natChars v.natAbs := by
      simp [renderInt, hv]
    obtain ⟨c, cs, hc, hdig⟩ := natChars_cons v.natAbs
    have hnm : c ≠ '-' := (digit_not_break c hdig).1
    rw [hr, hc, List.cons_append]
    simp only [parseNumber]
    rw [if_neg hnm, ← List.cons_append, ← hc,
      parseUnsigned_natChars v.natAbs rest hrest]
    have hval : ((v.natAbs : Nat) : Int) = v := by omega
    rw [hval]

theorem tenth_num_den (k : Int) :
    10 * ((k : ℚ) / 10).num / ((((k : ℚ) / 10).den : Nat) : Int) = k := by
  set q : ℚ := (k : ℚ) / 10 with hq
  have hden : (((q.den : Nat)) : Int) ≠ 0 := by
    exact_mod_cast q.den_pos.ne'
  have hden2 : (((q.den : Nat)) : ℚ) ≠ 0 := by
    exact_mod_cast q.den_pos.ne'
  have h1 : ((10 * q.num : Int) : ℚ) / ((q.den : Nat) : ℚ) = 10 * q := scale_repr q
  have h2 : (10 : ℚ) * q = (k : ℚ) := by
    rw [hq]
    field_simp
  have h3 : ((10 * q.num : Int) : ℚ) = (k : ℚ) * ((q.den : Nat) : ℚ) := by
    rw [← h2, ← h1, div_mul_cancel₀ _ hden2]
  have h4 : 10 * q.num = k * ((q.den : Nat) : Int) := by
    exact_mod_cast h3
  rw [h4, Int.mul_ediv_cancel _ hden]

theorem renderFloat_tenth (k : Int) :
    renderFloat ((k : ℚ) / 10) =
      (if k < 0 then ['-'] else []) ++
        natChars (k.natAbs / 10) ++ '.' :: [Char.ofNat (48 + k.natAbs % 10)] := by
  simp only [renderFloat]
  rw [tenth_num_den k]

theorem parseUnsigned_tenth (a : Nat) (rest : List Char) (hrest : numBreak rest) :
    parseUnsigned (natChars (a / 10) ++ ('.' :: Char.ofNat (48 + a % 10) :: rest)) =
      some (JAtom.jfloat (Rat.divInt (a : Int) 10), rest) := by
  have hdb : digitBreak ('.' :: Char.ofNat (48 + a % 10) :: rest) := by
    show ('.').isDigit = false
    decide
  obtain ⟨L, hL, hp⟩ := parseDigitsCnt_natChars (a / 10) _ hdb
  obtain ⟨hdig, hval⟩ := dchar_digit (a % 10) (Nat.mod_lt _ (by norm_num))
  unfold parseUnsigned
  rw [hp]
  have hL0 : ¬ L = 0 := by omega
  have hstep : parseDigitsCnt 0 0 (Char.ofNat (48 + a % 10) :: rest) =
      (a % 10, 1, rest) := by
    simp only [parseDigitsCnt, hdig, if_true, hval]
    norm_num
    exact parseDigitsCnt_stop _ _ rest (numBreak_digitBreak rest hrest)
  simp only [hL0, if_false, hstep]
  have hv : ((a / 10 : Nat) : Int) * ((10 ^ 1 : Nat) : Int) + ((a % 10 : Nat) : Int) =
      (a : Int) := by
    push_cast
    omega
  simp [hv]
  congr 1

theorem parseNumber_renderFloat (k : Int) (rest : List Char) (hrest : numBreak rest) :
    parseNumber (renderFloat ((k : ℚ) / 10) ++ rest) =
      some (JAtom.jfloat ((k : ℚ) / 10), rest) := by
  rw [renderFloat_tenth]
  by_cases hk : k < 0
  · rw [if_pos hk]
    have hshape : ((['-'] ++ natChars (k.natAbs / 10) ++
        '.' :: [Char.ofNat (48 + k.natAbs % 10)]) ++ rest) =
        '-' :: (natChars (k.natAbs / 10) ++
          ('.' :: Char.ofNat (48 + k.natAbs % 10) :: rest)) := by
      simp [List.append_assoc]
    rw [hshape]
    simp only [parseNumber]
    rw [parseUnsigned_tenth k.natAbs rest hrest]
    have hd : Rat.divInt ((k.natAbs : Nat) : Int) 10 = -((k : ℚ) / 10) := by
      have h1 : ((k.natAbs : Nat) : Int) = -k := by omega
      rw [h1, Rat.divInt_eq_div]
      push_cast
      ring
    show some (negAtom (JAtom.jfloat (Rat.divInt ((k.natAbs : Nat) : Int) 10)), rest) =
      some (JAtom.jfloat ((k : ℚ) / 10), rest)
    simp only [negAtom]
    rw [hd, neg_neg]
  · rw [if_neg hk]
    have hshape : (([] ++ natChars (k.natAbs / 10) ++
        '.' :: [Char.ofNat (48 + k.natAbs % 10)]) ++ rest) =
        (natChars (k.natAbs / 10) ++
          ('.' :: Char.ofNat (48 + k.natAbs % 10) :: rest)) := by
      simp [List.append_assoc]
    rw [hshape]
    obtain ⟨c, cs, hc, hdig⟩ := natChars_cons (k.natAbs / 10)
    have hnm : c ≠ '-' := (digit_not_break c hdig).1
    rw [hc, List.cons_append]
    simp only [parseNumber]
    rw [if_neg hnm, ← List.cons_append, ← hc,
      parseUnsigned_tenth k.natAbs rest hrest]
    have hd : Rat.divInt ((k.natAbs : Nat) : Int) 10 = (k : ℚ) / 10 := by
      have h1 : ((k.natAbs : Nat) : Int) = k := by omega
      rw [h1, Rat.divInt_eq_div]
      push_cast
      ring
    rw [hd]

/-! ## Round trip: atoms and members -/

theorem string_mk_data (s : String) : String.mk s.data = s := by
  cases s
  rfl

theorem serNum_head (a : JAtom)
    (ha : (∃ n, a = JAtom.jint n) ∨ (∃ q, a = JAtom.jfloat q)) :
    ∃ c cs, serAtom a = c :: cs ∧ c ≠ '"' ∧
      ¬(c = ' ' ∨ c = '\x0a' ∨ c = '\x09' ∨ c = '\x0d') := by
  have hint : ∀ n : Int, ∃ c cs, renderInt n = c :: cs ∧ c ≠ '"' ∧
      ¬(c = ' ' ∨ c = '\x0a' ∨ c = '\x09' ∨ c = '\x0d') := by
    intro n
    by_cases hn : n < 0
    · refine ⟨'-', natChars n.natAbs, ?_, by decide, by decide⟩
      simp [renderInt, hn]
    · obtain ⟨c, cs, hc, hdig⟩ := natChars_cons n.natAbs
      obtain ⟨_, hq, _, hws⟩ := digit_not_break c hdig
      refine ⟨c, cs, ?_, hq, hws⟩
      simp [renderInt, hn, hc]
  rcases ha with ⟨n, rfl⟩ | ⟨q, rfl⟩
  · exact hint n
  · simp only [serAtom, renderFloat]
    by_cases hk : 10 * q.num / ((q.den : Nat) : Int) < 0
    · rw [if_pos hk]
      exact ⟨'-', _, rfl, by decide, by decide⟩
    · rw [if_neg hk]
      obtain ⟨c, cs, hc, hdig⟩ :=
        natChars_cons ((10 * q.num / ((q.den : Nat) : Int)).natAbs / 10)
      obtain ⟨_, hq, _, hws⟩ := digit_not_break c hdig
      refine ⟨c, cs ++ ['.', Char.ofNat (48 + (10 * q.num / ((q.den : Nat) : Int)).natAbs % 10)],
        ?_, hq, hws⟩
      rw [List.nil_append, hc]
      rfl

theorem serAtom_head_not_ws (a : JAtom) (ha : a ≠ JAtom.jobj) :
    ∃ c cs, serAtom a = c :: cs ∧
      ¬(c = ' ' ∨ c = '\x0a' ∨ c = '\x09' ∨ c = '\x0d') := by
  cases a with
  | jstr s => exact ⟨'"', _, rfl, by decide⟩
  | jint n =>
    obtain ⟨c, cs, hc, _, hws⟩ := serNum_head (JAtom.jint n) (Or.inl ⟨n, rfl⟩)
    exact ⟨c, cs, hc, hws⟩
  | jfloat q =>
    obtain ⟨c, cs, hc, _, hws⟩ := serNum_head (JAtom.jfloat q) (Or.inr ⟨q, rfl⟩)
    exact ⟨c, cs, hc, hws⟩
  | jobj => exact absurd rfl ha

theorem parseAtom_ser (sf : Nat) (a : JAtom) (hgood : goodAtom a)
    (ha : a ≠ JAtom.jobj) (hsf : atomNeed a < sf) (rest : List Char)
    (hrest : numBreak rest) :
    parseAtom sf (serAtom a ++ rest) = some (a, rest) := by
  cases a with
  | jstr s =>
    show parseAtom sf (('"' :: (escapeString s.data ++ ['"'])) ++ rest) = _
    have hshape : ('"' :: (escapeString s.data ++ ['"'])) ++ rest =
        '"' :: (escapeString s.data ++ ('"' :: rest)) := by
      simp [List.append_assoc]
    rw [hshape]
    simp only [parseAtom]
    rw [parseStringBody_escape s.data rest sf hsf]
    simp [string_mk_data]
  | jint n =>
    obtain ⟨c, cs, hc, hq, _⟩ := serNum_head (JAtom.jint n) (Or.inl ⟨n, rfl⟩)
    rw [show serAtom (JAtom.jint n) ++ rest = c :: (cs ++ rest) by
      rw [← List.cons_append, ← hc]]
    simp only [parseAtom]
    rw [if_neg hq, ← List.cons_append, ← hc]
    exact parseNumber_renderInt n rest hrest
  | jfloat q =>
    obtain ⟨k, rfl⟩ := hgood
    obtain ⟨c, cs, hc, hq, _⟩ :=
      serNum_head (JAtom.jfloat ((k : ℚ) / 10)) (Or.inr ⟨_, rfl⟩)
    rw [show serAtom (JAtom.jfloat ((k : ℚ) / 10)) ++ rest = c :: (cs ++ rest) by
      rw [← List.cons_append, ← hc]]
    simp only [parseAtom]
    rw [if_neg hq, ← List.cons_append, ← hc]
    exact parseNumber_renderFloat k rest hrest
  | jobj => exact absurd rfl ha

theorem skipWs_quote (cs : List Char) : skipWs ('"' :: cs) = '"' :: cs := rfl

theorem skipWs_colon (cs : List Char) : skipWs (':' :: cs) = ':' :: cs := rfl

theorem skipWs_comma (cs : List Char) : skipWs (',' :: cs) = ',' :: cs := rfl

theorem skipWs_space (cs : List Char) : skipWs (' ' :: cs) = skipWs cs := rfl

theorem skipWs_rbrace (cs : List Char) : skipWs ('\x7d' :: cs) = '\x7d' :: cs := rfl

theorem skipWs_lbrace (cs : List Char) : skipWs ('\x7b' :: cs) = '\x7b' :: cs := rfl

theorem skipWs_rbracket (cs : List Char) : skipWs (']' :: cs) = ']' :: cs := rfl

theorem skipWs_lbracket (cs : List Char) : skipWs ('[' :: cs) = '[' :: cs := rfl

theorem dumpPair_eq (key : String) (a : JAtom) (ha : a ≠ JAtom.jobj) :
    dumpPair (key, a) =
      ('"' :: (escapeString key.data ++ ('"' :: ':' :: ' ' :: serAtom a)), true) := by
  cases a with
  | jobj => exact absurd rfl ha
  | jstr s => simp [dumpPair, List.append_assoc]
  | jint n => simp [dumpPair, List.append_assoc]
  | jfloat q => simp [dumpPair, List.append_assoc]

theorem parsePair_dump (sf : Nat) (p : String × JAtom)
    (hap : p.snd ≠ JAtom.jobj) (hgoodp : goodAtom p.snd)
    (hkp : p.fst.data.length < sf) (hvp : atomNeed p.snd < sf) (rest : List Char)
    (hrest : numBreak rest) :
    parsePair sf ((dumpPair p).fst ++ rest) = some (p, rest) := by
  obtain ⟨key, a⟩ := p
  have ha : a ≠ JAtom.jobj := hap
  have hgood : goodAtom a := hgoodp
  have hk : key.data.length < sf := hkp
  have hv : atomNeed a < sf := hvp
  have hatom : parseAtom sf (skipWs (' ' :: (serAtom a ++ rest))) = some (a, rest) := by
    rw [skipWs_space]
    obtain ⟨c, cs, hc, hws⟩ := serAtom_head_not_ws a ha
    rw [hc, List.cons_append, skipWs_cons_not c _ hws, ← List.cons_append, ← hc]
    exact parseAtom_ser sf a hgood ha hv rest hrest
  rw [dumpPair_eq key a ha]
  have hshape : ('"' :: (escapeString key.data ++ ('"' :: ':' :: ' ' :: serAtom a)), true).fst
      ++ rest =
      '"' :: (escapeString key.data ++
        ('"' :: (':' :: ' ' :: (serAtom a ++ rest)))) := by
    simp [List.append_assoc]
  rw [hshape]
  unfold parsePair
  rw [skipWs_quote]
  simp only [parseStringBody_escape key.data (':' :: ' ' :: (serAtom a ++ rest)) sf hk,
    skipWs_colon, hatom, string_mk_data]
  simp

/-! ## Round trip: objects and the array -/

theorem dumpPair_ok_ne (p : String × JAtom) (h : (dumpPair p).snd = true) :
    p.snd ≠ JAtom.jobj := by
  intro hobj
  obtain ⟨key, a⟩ := p
  simp only at hobj
  subst hobj
  simp [dumpPair] at h

theorem dumpPairsLoop_ok (p : String × JAtom) (ps : List (String × JAtom))
    (h : (dumpPairsLoop (p :: ps)).snd = true) :
    (dumpPair p).snd = true ∧ (dumpPairsLoop ps).snd = true := by
  simp only [dumpPairsLoop] at h
  by_cases hp : (dumpPair p).snd = true
  · rw [if_pos hp] at h
    exact ⟨hp, h⟩
  · rw [if_neg hp] at h
    simp at h

theorem dumpPairsLoop_cons (p : String × JAtom) (ps : List (String × JAtom))
    (hp : (dumpPair p).snd = true) :
    (dumpPairsLoop (p :: ps)).fst =
      ',' :: nl4 ++ (dumpPair p).fst ++ (dumpPairsLoop ps).fst ∧
    (dumpPairsLoop (p :: ps)).snd = (dumpPairsLoop ps).snd := by
  simp only [dumpPairsLoop]
  rw [if_pos hp]
  exact ⟨rfl, rfl⟩

theorem dumpObj_ok (p : String × JAtom) (ps : List (String × JAtom))
    (h : (dumpObj (p :: ps)).snd = true) :
    (dumpPair p).snd = true ∧ (dumpPairsLoop ps).snd = true := by
  simp only [dumpObj] at h
  by_cases hp : (dumpPair p).snd = true
  · rw [if_pos hp] at h
    by_cases hps : (dumpPairsLoop ps).snd = true
    · exact ⟨hp, hps⟩
    · rw [if_neg hps] at h
      simp at h
  · rw [if_neg hp] at h
    simp at h

theorem dumpObj_cons (p : String × JAtom) (ps : List (String × JAtom))
    (hp : (dumpPair p).snd = true) (hps : (dumpPairsLoop ps).snd = true) :
    dumpObj (p :: ps) =
      ('\x7b' :: nl4 ++ (dumpPair p).fst ++ (dumpPairsLoop ps).fst ++ nl2 ++ ['\x7d'],
        true) := by
  simp only [dumpObj]
  rw [if_pos hp, if_pos hps]

theorem dumpPairsLoop_break (ps : List (String × JAtom)) (X : List Char)
    (hok : (dumpPairsLoop ps).snd = true) :
    numBreak ((dumpPairsLoop ps).fst ++ (nl2 ++ X)) := by
  cases ps with
  | nil =>
    show numBreak ([] ++ (nl2 ++ X))
    rw [List.nil_append]
    exact ⟨by decide, by decide⟩
  | cons p ps =>
    obtain ⟨hp, _⟩ := dumpPairsLoop_ok p ps hok
    obtain ⟨hfst, _⟩ := dumpPairsLoop_cons p ps hp
    rw [hfst]
    rw [show (',' :: nl4 ++ (dumpPair p).fst ++ (dumpPairsLoop ps).fst) ++ (nl2 ++ X) =
      ',' :: (nl4 ++ (dumpPair p).fst ++ (dumpPairsLoop ps).fst ++ (nl2 ++ X)) by
        simp [List.append_assoc]]
    exact ⟨by decide, by decide⟩

theorem parsePair_ws (sf : Nat) (xs ys : List Char) (h : skipWs xs = skipWs ys) :
    parsePair sf xs = parsePair sf ys := by
  unfold parsePair
  rw [h]

theorem parseObjLoop_dump (sf : Nat) (ps : List (String × JAtom)) :
    ∀ (fuel : Nat) (rest : List Char), ps.length < fuel →
      (dumpPairsLoop ps).snd = true →
      (∀ p ∈ ps, goodAtom p.snd ∧ p.fst.data.length < sf ∧ atomNeed p.snd < sf) →
      parseObjLoop sf fuel ((dumpPairsLoop ps).fst ++ (nl2 ++ ('\x7d' :: rest))) =
        some (ps, rest) := by
  induction ps with
  | nil =>
    intro fuel rest hf hok hfits
    cases fuel with
    | zero => omega
    | succ f =>
      show parseObjLoop sf (f + 1) ([] ++ (nl2 ++ ('\x7d' :: rest))) = _
      rw [List.nil_append]
      simp only [parseObjLoop]
      rw [skipWs_nl2, skipWs_rbrace]
      simp
  | cons p ps ih =>
    intro fuel rest hf hok hfits
    cases fuel with
    | zero => omega
    | succ f =>
      obtain ⟨hp, hps⟩ := dumpPairsLoop_ok p ps hok
      obtain ⟨hfst, _⟩ := dumpPairsLoop_cons p ps hp
      rw [hfst]
      have hshape : (',' :: nl4 ++ (dumpPair p).fst ++ (dumpPairsLoop ps).fst) ++
          (nl2 ++ ('\x7d' :: rest)) =
          ',' :: (nl4 ++ ((dumpPair p).fst ++
            ((dumpPairsLoop ps).fst ++ (nl2 ++ ('\x7d' :: rest))))) := by
        simp [List.append_assoc]
      rw [hshape]
      have hpw : parsePair sf (nl4 ++ ((dumpPair p).fst ++
          ((dumpPairsLoop ps).fst ++ (nl2 ++ ('\x7d' :: rest))))) =
          some (p, (dumpPairsLoop ps).fst ++ (nl2 ++ ('\x7d' :: rest))) := by
        rw [parsePair_ws sf _ _ (skipWs_nl4 _)]
        obtain ⟨hg, hk2, hv2⟩ := hfits p (List.Mem.head _)
        exact parsePair_dump sf p (dumpPair_ok_ne p hp) hg hk2 hv2 _
          (dumpPairsLoop_break ps _ hps)
      have hih := ih f rest (by simp only [List.length_cons] at hf; omega) hps
        (fun q hq => hfits q (List.Mem.tail _ hq))
      simp only [parseObjLoop]
      rw [skipWs_comma]
      simp [hpw, hih]

theorem dumpObj_head (r : Record) (hok : (dumpObj r).snd = true) :
    ∃ t, (dumpObj r).fst = '\x7b' :: t := by
  cases r with
  | nil => exact ⟨['\x7d'], rfl⟩
  | cons p ps =>
    obtain ⟨hp, hps⟩ := dumpObj_ok p ps hok
    rw [dumpObj_cons p ps hp hps]
    exact ⟨_, rfl⟩

theorem parseObj_dump (sf : Nat) (r : Record) (hok : (dumpObj r).snd = true)
    (hgood : goodRec r) (hlen : r.length < sf)
    (hfits : ∀ p ∈ r, p.fst.data.length < sf ∧ atomNeed p.snd < sf)
    (rest : List Char) :
    parseObj sf ((dumpObj r).fst ++ rest) = some (r, rest) := by
  cases r with
  | nil =>
    show parseObj sf ('\x7b' :: ('\x7d' :: rest)) = _
    unfold parseObj
    rw [skipWs_lbrace]
    simp [skipWs_rbrace]
  | cons p ps =>
    obtain ⟨hp, hps⟩ := dumpObj_ok p ps hok
    rw [dumpObj_cons p ps hp hps]
    have hshape : (('\x7b' :: nl4 ++ (dumpPair p).fst ++ (dumpPairsLoop ps).fst ++ nl2 ++
        ['\x7d'], true).fst) ++ rest =
        '\x7b' :: (nl4 ++ ((dumpPair p).fst ++
          ((dumpPairsLoop ps).fst ++ (nl2 ++ ('\x7d' :: rest))))) := by
      simp [List.append_assoc]
    rw [hshape]
    set Z : List Char := (dumpPairsLoop ps).fst ++ (nl2 ++ ('\x7d' :: rest)) with hZ
    have ha := dumpPair_ok_ne p hp
    have hpe : dumpPair p =
        ('"' :: (escapeString p.fst.data ++ ('"' :: ':' :: ' ' :: serAtom p.snd)),
          true) := dumpPair_eq p.fst p.snd ha
    have heN : (dumpPair p).fst ++ Z =
        '"' :: (escapeString p.fst.data ++
          ('"' :: ':' :: ' ' :: (serAtom p.snd ++ Z))) := by
      rw [hpe]
      simp [List.append_assoc]
    have hpair : parsePair sf ('"' :: (escapeString p.fst.data ++
        ('"' :: ':' :: ' ' :: (serAtom p.snd ++ Z)))) = some (p, Z) := by
      rw [← heN]
      obtain ⟨hk2, hv2⟩ := hfits p (List.Mem.head _)
      exact parsePair_dump sf p ha (hgood p (List.Mem.head _)) hk2 hv2 _
        (dumpPairsLoop_break ps _ hps)
    have hskipN : skipWs (nl4 ++ ('"' :: (escapeString p.fst.data ++
        ('"' :: ':' :: ' ' :: (serAtom p.snd ++ Z))))) =
        '"' :: (escapeString p.fst.data ++
          ('"' :: ':' :: ' ' :: (serAtom p.snd ++ Z))) := by
      rw [skipWs_nl4, skipWs_quote]
    have hloop := parseObjLoop_dump sf ps sf rest
      (by simp only [List.length_cons] at hlen; omega) hps
      (fun q hq => ⟨hgood q (List.Mem.tail _ hq), hfits q (List.Mem.tail _ hq)⟩)
    have hq1 : ¬(('"' : Char) = '\x7d') := by decide
    unfold parseObj
    rw [skipWs_lbrace]
    simp [heN, hskipN, hpair, hloop, hq1]

theorem dumpObjsLoop_ok (r : Record) (rs : List Record)
    (h : (dumpObjsLoop (r :: rs)).snd = true) :
    (dumpObj r).snd = true ∧ (dumpObjsLoop rs).snd = true := by
  simp only [dumpObjsLoop] at h
  by_cases hr : (dumpObj r).snd = true
  · rw [if_pos hr] at h
    exact ⟨hr, h⟩
  · rw [if_neg hr] at h
    simp at h

theorem dumpObjsLoop_cons (r : Record) (rs : List Record)
    (hr : (dumpObj r).snd = true) :
    (dumpObjsLoop (r :: rs)).fst =
      ',' :: nl2 ++ (dumpObj r).fst ++ (dumpObjsLoop rs).fst ∧
    (dumpObjsLoop (r :: rs)).snd = (dumpObjsLoop rs).snd := by
  simp only [dumpObjsLoop]
  rw [if_pos hr]
  exact ⟨rfl, rfl⟩

theorem parseObj_ws (sf : Nat) (xs ys : List Char) (h : skipWs xs = skipWs ys) :
    parseObj sf xs = parseObj sf ys := by
  unfold parseObj
  rw [h]

theorem parseArrLoop_dump (sf : Nat) (rs : List Record) :
    ∀ (fuel : Nat) (rest : List Char), rs.length < fuel →
      (dumpObjsLoop rs).snd = true →
      (∀ r ∈ rs, goodRec r ∧ r.length < sf ∧
        ∀ p ∈ r, p.fst.data.length < sf ∧ atomNeed p.snd < sf) →
      parseArrLoop sf fuel ((dumpObjsLoop rs).fst ++ (nl0 ++ (']' :: rest))) =
        some (rs, rest) := by
  induction rs with
  | nil =>
    intro fuel rest hf hok hfits
    cases fuel with
    | zero => omega
    | succ f =>
      show parseArrLoop sf (f + 1) ([] ++ (nl0 ++ (']' :: rest))) = _
      rw [List.nil_append]
      simp only [parseArrLoop]
      rw [skipWs_nl0, skipWs_rbracket]
      simp
  | cons r rs ih =>
    intro fuel rest hf hok hfits
    cases fuel with
    | zero => omega
    | succ f =>
      obtain ⟨hr, hrs⟩ := dumpObjsLoop_ok r rs hok
      obtain ⟨hfst, _⟩ := dumpObjsLoop_cons r rs hr
      rw [hfst]
      have hshape : (',' :: nl2 ++ (dumpObj r).fst ++ (dumpObjsLoop rs).fst) ++
          (nl0 ++ (']' :: rest)) =
          ',' :: (nl2 ++ ((dumpObj r).fst ++
            ((dumpObjsLoop rs).fst ++ (nl0 ++ (']' :: rest))))) := by
        simp [List.append_assoc]
      rw [hshape]
      have hobj : parseObj sf (nl2 ++ ((dumpObj r).fst ++
          ((dumpObjsLoop rs).fst ++ (nl0 ++ (']' :: rest))))) =
          some (r, (dumpObjsLoop rs).fst ++ (nl0 ++ (']' :: rest))) := by
        rw [parseObj_ws sf _ _ (skipWs_nl2 _)]
        obtain ⟨hg, hl2, hf2⟩ := hfits r (List.Mem.head _)
        exact parseObj_dump sf r hr hg hl2 hf2 _
      have hih := ih f rest (by simp only [List.length_cons] at hf; omega) hrs
        (fun q hq => hfits q (List.Mem.tail _ hq))
      simp only [parseArrLoop]
      rw [skipWs_comma]
      simp [hobj, hih]

theorem json_dump_ok (r : Record) (rs : List Record)
    (h : (json_dump (r :: rs)).snd = true) :
    (dumpObj r).snd = true ∧ (dumpObjsLoop rs).snd = true := by
  simp only [json_dump] at h
  by_cases hr : (dumpObj r).snd = true
  · rw [if_pos hr] at h
    by_cases hrs : (dumpObjsLoop rs).snd = true
    · exact ⟨hr, hrs⟩
    · rw [if_neg hrs] at h
      simp at h
  · rw [if_neg hr] at h
    simp at h

theorem json_dump_cons (r : Record) (rs : List Record)
    (hr : (dumpObj r).snd = true) (hrs : (dumpObjsLoop rs).snd = true) :
    json_dump (r :: rs) =
      ('[' :: nl2 ++ (dumpObj r).fst ++ (dumpObjsLoop rs).fst ++ nl0 ++ [']'],
        true) := by
  simp only [json_dump]
  rw [if_pos hr, if_pos hrs]

theorem parseRecords_dump (sf : Nat) (l : List Record)
    (hok : (json_dump l).snd = true) (hgood : goodRecs l) (hlen : l.length < sf)
    (hfits : ∀ r ∈ l, r.length < sf ∧
      ∀ p ∈ r, p.fst.data.length < sf ∧ atomNeed p.snd < sf)
    (rest : List Char) :
    parseRecords sf ((json_dump l).fst ++ rest) = some (l, rest) := by
  cases l with
  | nil =>
    show parseRecords sf ('[' :: (']' :: rest)) = _
    unfold parseRecords
    rw [skipWs_lbracket]
    simp [skipWs_rbracket]
  | cons r rs =>
    obtain ⟨hr, hrs⟩ := json_dump_ok r rs hok
    rw [json_dump_cons r rs hr hrs]
    have hshape : (('[' :: nl2 ++ (dumpObj r).fst ++ (dumpObjsLoop rs).fst ++ nl0 ++
        [']'], true).fst) ++ rest =
        '[' :: (nl2 ++ ((dumpObj r).fst ++
          ((dumpObjsLoop rs).fst ++ (nl0 ++ (']' :: rest))))) := by
      simp [List.append_assoc]
    rw [hshape]
    set Z : List Char := (dumpObjsLoop rs).fst ++ (nl0 ++ (']' :: rest)) with hZ
    obtain ⟨t, ht⟩ := dumpObj_head r hr
    have heN : (dumpObj r).fst ++ Z = '\x7b' :: (t ++ Z) := by
      rw [ht]
      rfl
    have hobj : parseObj sf ('\x7b' :: (t ++ Z)) = some (r, Z) := by
      rw [show '\x7b' :: (t ++ Z) = (dumpObj r).fst ++ Z from heN.symm]
      obtain ⟨hl2, hf2⟩ := hfits r (List.Mem.head _)
      exact parseObj_dump sf r hr (hgood r (List.Mem.head _)) hl2 hf2 _
    have hskipN : skipWs (nl2 ++ ('\x7b' :: (t ++ Z))) = '\x7b' :: (t ++ Z) := by
      rw [skipWs_nl2, skipWs_lbrace]
    have hloop := parseArrLoop_dump sf rs sf rest
      (by simp only [List.length_cons] at hlen; omega) hrs
      (fun q hq => ⟨hgood q (List.Mem.tail _ hq), hfits q (List.Mem.tail _ hq)⟩)
    have hq1 : ¬(('\x7b' : Char) = ']') := by decide
    unfold parseRecords
    rw [skipWs_lbracket]
    simp [heN, hskipN, hobj, hloop, hq1]

/-! ## Length bounds for the parser fuel -/

theorem escapeString_len (cs : List Char) :
    cs.length ≤ (escapeString cs).length := by
  induction cs with
  | nil => simp [escapeString]
  | cons c cs ih =>
    obtain ⟨hd, tl, hec, _⟩ := escapeChar_head c
    simp only [escapeString, List.length_cons, List.length_append, hec]
    omega

theorem dumpPair_bounds (p : String × JAtom) (h : (dumpPair p).snd = true) :
    p.fst.data.length < (dumpPair p).fst.length ∧
      atomNeed p.snd < (dumpPair p).fst.length := by
  have ha := dumpPair_ok_ne p h
  have hpe := dumpPair_eq p.fst p.snd ha
  have hfst : (dumpPair p).fst =
      '"' :: (escapeString p.fst.data ++ ('"' :: ':' :: ' ' :: serAtom p.snd)) := by
    rw [hpe]
  rw [hfst]
  have hesc := escapeString_len p.fst.data
  constructor
  · simp only [List.length_cons, List.length_append]
    omega
  · cases hsnd : p.snd with
    | jstr s =>
      have hs : atomNeed (JAtom.jstr s) = s.data.length := rfl
      have hser : serAtom (JAtom.jstr s) = '"' :: escapeString s.data ++ ['"'] := rfl
      have hesc2 := escapeString_len s.data
      rw [hs, hser]
      simp only [List.length_cons, List.length_append]
      omega
    | jint n =>
      show atomNeed (JAtom.jint n) < _
      simp only [atomNeed, List.length_cons]
      omega
    | jfloat q =>
      show atomNeed (JAtom.jfloat q) < _
      simp only [atomNeed, List.length_cons]
      omega
    | jobj => exact absurd hsnd ha

theorem dumpPairsLoop_bounds (ps : List (String × JAtom))
    (h : (dumpPairsLoop ps).snd = true) :
    ps.length ≤ (dumpPairsLoop ps).fst.length ∧
      ∀ p ∈ ps, p.fst.data.length < (dumpPairsLoop ps).fst.length ∧
        atomNeed p.snd < (dumpPairsLoop ps).fst.length := by
  induction ps with
  | nil =>
    constructor
    · decide
    · intro p hp
      simp at hp
  | cons p ps ih =>
    obtain ⟨hp, hps⟩ := dumpPairsLoop_ok p ps h
    obtain ⟨hfst, _⟩ := dumpPairsLoop_cons p ps hp
    obtain ⟨ih1, ih2⟩ := ih hps
    obtain ⟨hb1, hb2⟩ := dumpPair_bounds p hp
    rw [hfst]
    have hnl : nl4.length = 5 := rfl
    constructor
    · simp only [List.length_cons, List.length_append, hnl]
      omega
    · intro q hq
      cases hq with
      | head =>
        constructor <;> (simp only [List.length_cons, List.length_append, hnl]; omega)
      | tail _ hq =>
        obtain ⟨hc1, hc2⟩ := ih2 q hq
        constructor <;> (simp only [List.length_cons, List.length_append, hnl]; omega)

theorem dumpObj_bounds (r : Record) (h : (dumpObj r).snd = true) :
    r.length < (dumpObj r).fst.length ∧
      ∀ p ∈ r, p.fst.data.length < (dumpObj r).fst.length ∧
        atomNeed p.snd < (dumpObj r).fst.length := by
  cases r with
  | nil =>
    constructor
    · decide
    · intro p hp
      simp at hp
  | cons p ps =>
    obtain ⟨hp, hps⟩ := dumpObj_ok p ps h
    rw [dumpObj_cons p ps hp hps]
    obtain ⟨il1, il2⟩ := dumpPairsLoop_bounds ps hps
    obtain ⟨hb1, hb2⟩ := dumpPair_bounds p hp
    have hnl4 : nl4.length = 5 := rfl
    have hnl2 : nl2.length = 3 := rfl
    constructor
    · simp only [List.length_cons, List.length_append, hnl4, hnl2]
      omega
    · intro q hq
      cases hq with
      | head =>
        constructor <;>
          (simp only [List.length_cons, List.length_append, hnl4, hnl2]; omega)
      | tail _ hq =>
        obtain ⟨hc1, hc2⟩ := il2 q hq
        constructor <;>
          (simp only [List.length_cons, List.length_append, hnl4, hnl2]; omega)

theorem dumpObjsLoop_bounds (rs : List Record)
    (h : (dumpObjsLoop rs).snd = true) :
    rs.length ≤ (dumpObjsLoop rs).fst.length ∧
      ∀ r ∈ rs, r.length < (dumpObjsLoop rs).fst.length ∧
        ∀ p ∈ r, p.fst.data.length < (dumpObjsLoop rs).fst.length ∧
          atomNeed p.snd < (dumpObjsLoop rs).fst.length := by
  induction rs with
  | nil =>
    constructor
    · decide
    · intro r hr
      simp at hr
  | cons r rs ih =>
    obtain ⟨hr, hrs⟩ := dumpObjsLoop_ok r rs h
    obtain ⟨hfst, _⟩ := dumpObjsLoop_cons r rs hr
    obtain ⟨ih1, ih2⟩ := ih hrs
    obtain ⟨hb1, hb2⟩ := dumpObj_bounds r hr
    rw [hfst]
    have hnl2 : nl2.length = 3 := rfl
    constructor
    · simp only [List.length_cons, List.length_append, hnl2]
      omega
    · intro q hq
      cases hq with
      | head =>
        refine ⟨?_, fun p hp => ?_⟩
        · simp only [List.length_cons, List.length_append, hnl2]
          omega
        · obtain ⟨hc1, hc2⟩ := hb2 p hp
          constructor <;>
            (simp only [List.length_cons, List.length_append, hnl2]; omega)
      | tail _ hq =>
        obtain ⟨hc0, hc3⟩ := ih2 q hq
        refine ⟨?_, fun p hp => ?_⟩
        · simp only [List.length_cons, List.length_append, hnl2]
          omega
        · obtain ⟨hc1, hc2⟩ := hc3 p hp
          constructor <;>
            (simp only [List.length_cons, List.length_append, hnl2]; omega)

theorem json_dump_bounds (l : List Record) (h : (json_dump l).snd = true) :
    l.length < (json_dump l).fst.length ∧
      ∀ r ∈ l, r.length < (json_dump l).fst.length ∧
        ∀ p ∈ r, p.fst.data.length < (json_dump l).fst.length ∧
          atomNeed p.snd < (json_dump l).fst.length := by
  cases l with
  | nil =>
    constructor
    · decide
    · intro r hr
      simp at hr
  | cons r rs =>
    obtain ⟨hr, hrs⟩ := json_dump_ok r rs h
    rw [json_dump_cons r rs hr hrs]
    obtain ⟨il1, il2⟩ := dumpObjsLoop_bounds rs hrs
    obtain ⟨hb1, hb2⟩ := dumpObj_bounds r hr
    have hnl2 : nl2.length = 3 := rfl
    have hnl0 : nl0.length = 1 := rfl
    constructor
    · simp only [List.length_cons, List.length_append, hnl2, hnl0]
      omega
    · intro q hq
      cases hq with
      | head =>
        refine ⟨?_, fun p hp => ?_⟩
        · simp only [List.length_cons, List.length_append, hnl2, hnl0]
          omega
        · obtain ⟨hc1, hc2⟩ := hb2 p hp
          constructor <;>
            (simp only [List.length_cons, List.length_append, hnl2, hnl0]; omega)
      | tail _ hq =>
        obtain ⟨hc0, hc3⟩ := il2 q hq
        refine ⟨?_, fun p hp => ?_⟩
        · simp only [List.length_cons, List.length_append, hnl2, hnl0]
          omega
        · obtain ⟨hc1, hc2⟩ := hc3 p hp
          constructor <;>
            (simp only [List.length_cons, List.length_append, hnl2, hnl0]; omega)

/-! ## The round trip and C8 -/

theorem json_loads_dump (l : List Record) (hok : (json_dump l).snd = true)
    (hgood : goodRecs l) :
    json_loads (String.mk (json_dump l).fst) = some l := by
  obtain ⟨hb1, hb2⟩ := json_dump_bounds l hok
  have hp := parseRecords_dump ((json_dump l).fst.length + 1) l hok hgood
    (Nat.lt_succ_of_lt hb1)
    (fun r hr => ⟨Nat.lt_succ_of_lt (hb2 r hr).1,
      fun p hpp => ⟨Nat.lt_succ_of_lt ((hb2 r hr).2 p hpp).1,
        Nat.lt_succ_of_lt ((hb2 r hr).2 p hpp).2⟩⟩) []
  rw [List.append_nil] at hp
  have hjl : json_loads (String.mk (json_dump l).fst) =
      (match parseRecords ((json_dump l).fst.length + 1) (json_dump l).fst with
       | some (l2, rest) => if skipWs rest = [] then some l2 else none
       | none => none) := rfl
  rw [hjl, hp]
  rfl

theorem goodRecs_clean (rows : List SourceRow) : goodRecs (rows.map cleanRow) := by
  intro rec hrec
  obtain ⟨row, _, rfl⟩ := List.mem_map.mp hrec
  intro p hp
  simp only [cleanRow, List.mem_cons, List.not_mem_nil, or_false] at hp
  rcases hp with rfl | rfl | rfl | rfl | rfl | rfl | rfl | rfl
  · cases row.food_name <;> trivial
  · exact ⟨_, round1_eq _⟩
  · exact ⟨_, round1_eq _⟩
  · exact ⟨_, round1_eq _⟩
  · exact ⟨_, round1_eq _⟩
  · exact ⟨_, round1_eq _⟩
  · exact ⟨_, round1_eq _⟩
  · exact ⟨_, round1_eq _⟩

/-- C8: whenever the conversion succeeds, parsing the JSON text that
was written to the destination returns exactly the cleaned record list
that was serialized. -/
theorem C8_serialize_parse_roundtrip (t : RawTable) (fs : FS) (m : String)
    (h : (pipeline (LoadOutcome.ok t) fs).snd = Except.ok m) :
    ∃ s : String, (pipeline (LoadOutcome.ok t) fs).fst.dest = some s ∧
      json_loads s = some (t.rows.map cleanRow) := by
  have hrecs : cleanTable t = Except.ok (t.rows.map cleanRow) ∨
      ∃ e, cleanTable t = Except.error e := by
    unfold cleanTable
    cases requiredCols.find? (fun c => !(t.cols.contains c)) with
    | some c => exact Or.inr ⟨PyError.keyError c, rfl⟩
    | none => exact Or.inl rfl
  rcases hrecs with hct | ⟨e, hct⟩
  · simp only [pipeline, hct] at h ⊢
    by_cases hw : fs.writable = true
    · simp only [hw, if_true] at h ⊢
      by_cases hd : (json_dump (t.rows.map cleanRow)).snd = true
      · simp only [hd, if_true] at h ⊢
        exact ⟨String.mk (json_dump (t.rows.map cleanRow)).fst, rfl,
          json_loads_dump _ hd (goodRecs_clean t.rows)⟩
      · simp only [if_neg hd] at h
        simp at h
    · simp only [if_neg hw] at h
      simp at h
  · simp only [pipeline, hct] at h
    simp at h

set_option maxRecDepth 10000 in
/-- Witness for C8: the one-row rice table written to a fresh
destination. -/
theorem C8_serialize_parse_roundtrip_witness :
    (pipeline (LoadOutcome.ok riceTable) fsEmpty).snd =
      Except.ok (successMsg 1) ∧
    ∃ s : String, (pipeline (LoadOutcome.ok riceTable) fsEmpty).fst.dest = some s ∧
      json_loads s = some (riceTable.rows.map cleanRow) :=
  ⟨by rfl,
    C8_serialize_parse_roundtrip riceTable fsEmpty (successMsg 1) (by rfl)⟩
